import Mathlib

/-!
Verification development for the winget repository server.

The definitions below are shallow embeddings of the Python source:

* app/domain/winget_utils.py   (strip_nulls, match_text)
* app/api/winget.py            (_strip_nulls, _match_text, _values_for_field,
                                _package_matches_filter, _package_matches_query,
                                manifest_search, _compute_installer_sha256,
                                get_package_manifests)
* app/services/importer/package_importer.py
                               (version_key, _select_latest_version_data,
                                import_package, _import_version_from_data,
                                InstallerDownloader.download_installer)
* app/services/importer/index_downloader.py (download_winget_index retry loop)
* app/data/winget_index.py     (_decompress_mszip)

Python strings are modelled as Lean `String` and processed through their
`data` character lists; machine-specific caveats (Unicode case folding and
Unicode whitespace beyond ASCII) are noted at the relevant definitions.
Filesystem and network effects are passed in as explicit oracle functions.
-/

/-! ### Generic list machinery: stable insertion sort, first-occurrence dedup,
lexicographic comparison (models Python tuple/str comparison and stable
`list.sort`). -/

/-- Stable insertion of an element into a list: `a` goes before the first
element `b` with `le a b`.  Used through `sortByLe`. -/
def insertLe (le : α → α → Bool) (a : α) : List α → List α
  | [] => [a]
  | b :: bs => if le a b then a :: b :: bs else b :: insertLe le a bs

/-- Stable sort by a boolean total preorder.  Python's `list.sort` is a stable
sort; any stable sort by the same total preorder produces the same list, so
insertion sort is a faithful model of it. -/
def sortByLe (le : α → α → Bool) (l : List α) : List α := l.foldr (insertLe le) []

/-- Worker for `firstDedup`: drop elements already seen. -/
def firstDedupGo [DecidableEq α] (seen : List α) : List α → List α
  | [] => []
  | a :: as => if a ∈ seen then firstDedupGo seen as else a :: firstDedupGo (a :: seen) as

/-- Keep the first occurrence of each element, in order.  Models the key set of
a Python dict built by insertion (or a set comprehension, when followed by a
canonicalising sort). -/
def firstDedup [DecidableEq α] (l : List α) : List α := firstDedupGo [] l

/-- Lexicographic strict order on lists induced by a strict order on elements,
with the Python tuple/sequence rule: a strict prefix is smaller. -/
def lexLt (lt : α → α → Bool) [DecidableEq α] : List α → List α → Bool
  | [], [] => false
  | [], _ :: _ => true
  | _ :: _, [] => false
  | a :: as, b :: bs => lt a b || (decide (a = b) && lexLt lt as bs)

/-- Strict order on characters by code point, as Python compares characters
inside strings. -/
def charLtB (a b : Char) : Bool := decide (a < b)

/-- Python `str` comparison (lexicographic by code point). -/
def strLtB (a b : String) : Bool := lexLt charLtB a.data b.data

/-! ### Python string primitives used by the embedded functions. -/

/-- ASCII case folding, modelling Python `str.lower` on the ASCII range (the
repository compares identifiers, tags and protocol enums, which are ASCII). -/
def lowerStr (s : String) : String := ⟨s.data.map Char.toLower⟩

/-- ASCII whitespace recognised by the model of Python `str.strip` /
`int(...)`'s surrounding-whitespace tolerance. -/
def pySpace (c : Char) : Bool :=
  c = ' ' || c = '\t' || c = '\n' || c = '\r' || c = Char.ofNat 11 || c = Char.ofNat 12

/-- Python `str.strip()` (whitespace from both ends). -/
def pyStripChars (s : List Char) : List Char :=
  ((s.dropWhile pySpace).reverse.dropWhile pySpace).reverse

/-- Python `str.strip()` on `String`. -/
def pyStrip (s : String) : String := ⟨pyStripChars s.data⟩

/-- `isPrefB k v` : `k` is a prefix of `v`; models Python `v.startswith(k)`
(arguments in pattern order). -/
def isPrefB : List Char → List Char → Bool
  | [], _ => true
  | _ :: _, [] => false
  | a :: as, b :: bs => a == b && isPrefB as bs

/-- `containsSub v k` : `k` occurs as a contiguous substring of `v`; models
Python `k in v` for strings. -/
def containsSub (v k : List Char) : Bool :=
  (List.range (v.length + 1)).any (fun i => isPrefB k (v.drop i))

/-- Digit-run parser for the model of Python `int(...)`: decimal digits with
single underscores allowed between digits.  `seenDigit` records whether the
previous character was a digit (required at the end and on both sides of an
underscore). -/
def intDigitsCore : List Char → Nat → Bool → Option Nat
  | [], acc, true => some acc
  | [], _, false => none
  | c :: cs, acc, seenDigit =>
    if c.isDigit then intDigitsCore cs (acc * 10 + (c.toNat - 48)) true
    else if c = '_' then (if seenDigit then intDigitsCore cs acc false else none)
    else none

/-- Model of Python `int(s)` on a character list: surrounding whitespace is
tolerated, an optional sign precedes the digits, underscores may separate
digit groups.  (Non-ASCII digits are out of scope.)  `none` models the
`ValueError`. -/
def pyInt (s : List Char) : Option Int :=
  match pyStripChars s with
  | '+' :: rest => (intDigitsCore rest 0 false).map (fun n => (n : Int))
  | '-' :: rest => (intDigitsCore rest 0 false).map (fun n => -(n : Int))
  | t => (intDigitsCore t 0 false).map (fun n => (n : Int))

/-- Split a character list on a separator character; Python `str.split(sep)`
(so an empty input yields `[[]]`, like `"".split(".") == [""]`). -/
def splitOnChar (sep : Char) : List Char → List Char → List (List Char)
  | [], acc => [acc.reverse]
  | c :: cs, acc =>
    if c = sep then acc.reverse :: splitOnChar sep cs []
    else splitOnChar sep cs (c :: acc)

/-! ### VersionResolver: `version_key` from
app/services/importer/package_importer.py lines 204-212 / 275-283. -/

/-- One segment of a version key: Python's `(0, int(part))` or `(1, part)`. -/
inductive Seg where
  | num (n : Int)
  | str (s : String)
deriving DecidableEq

/-- Strict order on segments, as Python orders the pairs `(0, int)` and
`(1, str)`: every numeric segment sorts before every string segment, numbers
compare as integers, strings compare lexicographically by code point. -/
def segLtB : Seg → Seg → Bool
  | .num a, .num b => decide (a < b)
  | .num _, .str _ => true
  | .str _, .num _ => false
  | .str a, .str b => lexLt charLtB a.data b.data

/-- Strict order on version keys (Python tuple comparison of segments). -/
def segListLt (a b : List Seg) : Bool := lexLt segLtB a b

/-- `version_key` from package_importer.py: replace `-` by `.`, split on `.`,
turn each part into `(0, int(part))` when it parses as an integer and
`(1, part)` otherwise.  (The `str(v) if v is not None else ""` guard is the
identity on the `String` input modelled here.) -/
def version_key (v : String) : List Seg :=
  (splitOnChar '.' (v.data.map (fun c => if c = '-' then '.' else c)) []).map
    (fun part =>
      match pyInt part with
      | some n => Seg.num n
      | none => Seg.str ⟨part⟩)

example : version_key "1.9.0" = [.num 1, .num 9, .num 0] := by decide
example : version_key "1.0-beta" = [.num 1, .num 0, .str "beta"] := by decide

/-! ### MatchEngine: `match_text` from app/domain/winget_utils.py lines 16-44
(identical to `_match_text` in app/api/winget.py lines 133-161). -/

/-- The suffixes of `v` reachable by consuming a (possibly empty) run of
non-newline characters: the strings `.*` can leave behind. -/
def nlTails : List Char → List (List Char)
  | [] => [[]]
  | c :: cs => (c :: cs) :: (if c = '\n' then [] else nlTails cs)

/-- Core of the translated wildcard regular expression: `*` became `.*`, `?`
became `.`, everything else is escaped and literal.  As in Python `re`
without `DOTALL`, `.` (and hence `.*`) does not match a newline. -/
def globMatchCore : List Char → List Char → Bool
  | [], v => v.isEmpty
  | '*' :: ps, v => (nlTails v).any (fun w => globMatchCore ps w)
  | '?' :: ps, v =>
    match v with
    | [] => false
    | c :: cs => !(c = '\n') && globMatchCore ps cs
  | p :: ps, v =>
    match v with
    | [] => false
    | c :: cs => p == c && globMatchCore ps cs

/-- `re.search("^" + pattern + "$", value)`: the match is anchored at the
start, and `$` matches at the end of the string or just before a trailing
newline. -/
def pyFullMatch (p v : List Char) : Bool :=
  globMatchCore p v ||
    (match v.getLast? with
     | some c => if c = '\n' then globMatchCore p v.dropLast else false
     | none => false)

/-- `match_text(value, keyword, match_type)` from winget_utils.py.  A `None`
keyword never matches; the mode string is defaulted and stripped; `Exact` is
case-sensitive equality, everything else lower-cases both sides.  Wildcard
case-insensitivity (`re.IGNORECASE`) is modelled by lower-casing pattern and
value. -/
def match_text (value : String) (keyword : Option String) (match_type : Option String) : Bool :=
  match keyword with
  | none => false
  | some kw =>
    let m0 := pyStrip (match_type.getD "Substring")
    let m := if m0 = "" then "Substring" else m0
    if m = "Exact" then value == kw
    else
      let v := lowerStr value
      let k := lowerStr kw
      if m = "CaseInsensitive" then v == k
      else if m = "StartsWith" then isPrefB k.data v.data
      else if m = "Substring" ∨ m = "Fuzzy" ∨ m = "FuzzySubstring" then containsSub v.data k.data
      else if m = "Wildcard" then pyFullMatch k.data v.data
      else containsSub v.data k.data

example : match_text "Foo Bar" (some "bar") (some "Substring") = true := by decide
example : match_text "Foo Bar" (some "bar") (some "Exact") = false := by decide
example : match_text "abc" (some "a*c") (some "Wildcard") = true := by decide

/-! ### VersionResolver: `_select_latest_version_data` from
app/services/importer/package_importer.py lines 267-304. -/

/-- One element of the `all_version_data` list built by
`_load_all_versions_from_manifests` (package_importer.py lines 252-263).
Every key is present in those dicts, so `dict.get(key, default)` reads the
stored value (possibly `None`, modelled as `none`); the `.get` defaults in
`_select_latest_version_data` are only reachable for absent keys and never
fire on this data. -/
structure VersionData where
  version : String
  architecture : Option String := none
  scope : Option String := none
  installer_type : Option String := none
  installer_url : Option String := none
  installer_sha256 : Option String := none
deriving DecidableEq

/-- The grouping key `(arch, scp, inst_type)`. -/
def vdGroupKey (vd : VersionData) : Option String × Option String × Option String :=
  (vd.architecture, vd.scope, vd.installer_type)

/-- `if installer_types and inst_type not in installer_types: continue`.
An absent (`None`) installer-type filter and an empty list are both falsy in
Python, so the empty list models both. -/
def passesTypeFilter (installer_types : List String) (vd : VersionData) : Bool :=
  match installer_types with
  | [] => true
  | _ => installer_types.any (fun t => vd.installer_type == some t)

/-- Descending-by-`version_key` total preorder used for the per-group sort:
`group_versions.sort(key=version_key, reverse=True)` is a stable sort in
which ties keep their original order. -/
def vdDescLe (a b : VersionData) : Bool :=
  !(segListLt (version_key a.version) (version_key b.version))

/-- `_select_latest_version_data`: apply the installer-type filter, group by
`(architecture, scope, installer_type)` in first-occurrence order (a Python
dict preserves insertion order), sort each group descending by `version_key`
(stably), and keep the head of each group. -/
def select_latest_version_data (version_data : List VersionData)
    (installer_types : List String) : List VersionData :=
  let filtered := version_data.filter (passesTypeFilter installer_types)
  let keys := firstDedup (filtered.map vdGroupKey)
  keys.filterMap (fun k =>
    (sortByLe vdDescLe (filtered.filter (fun vd => vdGroupKey vd = k))).head?)

example :
    select_latest_version_data
      [{ version := "1.0", architecture := some "x64", scope := some "user", installer_type := some "exe" },
       { version := "2.0", architecture := some "x64", scope := some "user", installer_type := some "exe" },
       { version := "1.5", architecture := some "x86", scope := some "user", installer_type := some "exe" }] []
    = [{ version := "2.0", architecture := some "x64", scope := some "user", installer_type := some "exe" },
       { version := "1.5", architecture := some "x86", scope := some "user", installer_type := some "exe" }] := by
  decide

/-- Example candidates from the spec's testable-properties section:
(1.0, x64, user), (2.0, x64, user), (1.5, x86, user), all of type exe. -/
def exCand10 : VersionData :=
  { version := "1.0", architecture := some "x64", scope := some "user",
    installer_type := some "exe" }

def exCand20 : VersionData :=
  { version := "2.0", architecture := some "x64", scope := some "user",
    installer_type := some "exe" }

def exCand15 : VersionData :=
  { version := "1.5", architecture := some "x86", scope := some "user",
    installer_type := some "exe" }

/-! ### SyncOrchestrator: `import_package` / `_import_version_from_data` from
app/services/importer/package_importer.py lines 306-441, and the retry loop of
`download_winget_index` from app/services/importer/index_downloader.py lines
48-80.  Network downloads are modelled by an oracle `dl : Nat → Except String
String` giving each attempt's outcome (the SHA-256 hex digest on success). -/

/-- The dict returned by `_import_version_from_data` (the installer filename
string derived from the URL is immaterial to the claims and omitted). -/
structure ImportedVersionInfo where
  version : String
  architecture : String
  scope : String
deriving DecidableEq

/-- An entry of the run's error list: `{"version": ..., "error": str(e)}`. -/
structure ImportError where
  version : String
  error : String
deriving DecidableEq

/-- The run result dict `{"package_id", "imported_versions", "errors"}`. -/
structure ImportRunResult where
  package_id : String
  imported_versions : Nat
  errors : List ImportError
deriving DecidableEq

/-- Python `a or default` for an optional string (`None` and `""` are falsy). -/
def pyOrStr (a : Option String) (default : String) : String :=
  match a with
  | some s => if s = "" then default else s
  | none => default

/-- `_import_version_from_data` (package_importer.py lines 383-441): exactly
one call to `InstallerDownloader.download_installer` is made per installer
(lines 403-407); there is no retry loop around it, so the first failure
propagates to the caller. -/
def import_version_from_data (_package_id : String) (vd : VersionData)
    (dl : Nat → Except String String) : Except String ImportedVersionInfo :=
  let arch := pyOrStr vd.architecture "x64"
  let scp := pyOrStr vd.scope "user"
  match dl 1 with
  | .error e => .error e
  | .ok _sha => .ok { version := vd.version, architecture := arch, scope := scp }

/-- The retry loop of `download_winget_index` (index_downloader.py lines
48-80): `for attempt in range(1, 4)`, sleeping `1.0 * attempt` seconds after a
failed attempt when `attempt < 3` and re-raising on the third failure.  The
second component records the sleeps performed, in seconds. -/
def retry_loop (dl : Nat → Except String String) :
    Nat → List Nat → Except String String × List Nat
  | attempt, sleeps =>
    match dl attempt with
    | .ok h => (.ok h, sleeps)
    | .error e =>
      if attempt < 3 then retry_loop dl (attempt + 1) (sleeps ++ [attempt])
      else (.error e, sleeps)
termination_by attempt _ => 3 - attempt

/-- The index (MSIX) download of `download_winget_index` for one package name:
the retry loop started at attempt 1 with no sleeps performed yet. -/
def download_winget_index_retry (dl : Nat → Except String String) :
    Except String String × List Nat :=
  retry_loop dl 1 []

/-- The body of the per-version loop of `import_package` (lines 365-375): a
success is appended to `imported_versions`, a failure to `errors`; neither
stops the iteration. -/
def import_step (run_version : VersionData → Except String ImportedVersionInfo)
    (acc : List ImportedVersionInfo × List ImportError) (vd : VersionData) :
    List ImportedVersionInfo × List ImportError :=
  match run_version vd with
  | .ok r => (acc.1 ++ [r], acc.2)
  | .error e => (acc.1, acc.2 ++ [{ version := vd.version, error := e }])

/-- `import_package` (package_importer.py lines 306-381) after
`_load_all_versions_from_manifests` has produced `all_version_data`: raise
`No versions found ...` when the candidate list is empty, otherwise select
per-group latest when `version_mode == "latest"`, run each selected installer
through `_import_version_from_data` (modelled by `run_version`), collecting
failures into the error list without aborting the loop, and return the result
dict.  (`db.save_package` is an external effect with no bearing on the
result.) -/
def import_package (package_id : String) (all_version_data : List VersionData)
    (version_mode : String) (installer_types : List String)
    (run_version : VersionData → Except String ImportedVersionInfo) :
    Except String ImportRunResult :=
  if all_version_data = [] then
    .error ("No versions found for package " ++ package_id ++ " with filters")
  else
    let version_data_list :=
      if version_mode = "latest" then
        select_latest_version_data all_version_data installer_types
      else all_version_data
    let importedAndErrors := version_data_list.foldl (import_step run_version)
      (([] : List ImportedVersionInfo), ([] : List ImportError))
    .ok { package_id := package_id,
          imported_versions := importedAndErrors.1.length,
          errors := importedAndErrors.2 }

/-! ### ChunkDecompressor: `_decompress_mszip` from app/data/winget_index.py
lines 202-322.  The stateful raw-DEFLATE decompressor (`zlib.decompressobj(-
zlib.MAX_WBITS)`) is abstracted as an `Inflater`: a state type with a
chunk-decompress step (`none` models a raised `zlib.error`) and a final flush
(`none` models a raised exception, which the source swallows). -/

structure Inflater (σ : Type) where
  decompress : σ → List Nat → Option (σ × List Nat)
  flush : σ → Option (List Nat)

/-- Little-endian byte-list decoding, for `struct.unpack("<Q", ...)` and
`struct.unpack("<I", ...)`. -/
def leBytesToNat (bytes : List Nat) : Nat :=
  bytes.foldr (fun b acc => b + 256 * acc) 0

/-- The 6-byte MSZIP header magic `0x0a51e5c01800`. -/
def mszipMagic : List Nat := [0x0a, 0x51, 0xe5, 0xc0, 0x18, 0x00]

/-- The 2-byte chunk signature `b"CK"`. -/
def ckMarker : List Nat := [0x43, 0x4b]

/-- The declared uncompressed size: 8 bytes little-endian at header offset 8. -/
def declaredSize (data : List Nat) : Nat := leBytesToNat ((data.drop 8).take 8)

/-- The chunk loop of `_decompress_mszip` (winget_index.py lines 252-292).
`offset` tracks the Python byte offset; after a chunk of declared size `cs`
the next offset is `offset + 4 + cs` (this also reproduces the Python
behaviour for `cs < 2`, where the negative slice is empty).  Returns the
final decompressor state together with the accumulated output, or the raised
`ValueError`. -/
def process_chunks {σ : Type} (I : Inflater σ) (data : List Nat)
    (uncompressed_size : Nat) :
    σ → Nat → List Nat → Except String (σ × List Nat)
  | s, offset, acc =>
    if h : acc.length < uncompressed_size ∧ offset < data.length then
      if data.length < offset + 4 then .ok (s, acc)
      else
        let chunk_size := leBytesToNat ((data.drop offset).take 4)
        if data.length < offset + 4 + 2 then
          .error "Unexpected end of file when reading chunk signature"
        else if (data.drop (offset + 4)).take 2 ≠ ckMarker then
          .error "Invalid chunk signature"
        else if data.length < offset + 4 + chunk_size then
          .error "Unexpected end of file when reading compressed chunk"
        else
          let compressed_chunk := (data.drop (offset + 6)).take (chunk_size - 2)
          match I.decompress s compressed_chunk with
          | none => .error "Failed to decompress chunk"
          | some (s2, out) =>
            process_chunks I data uncompressed_size s2 (offset + 4 + chunk_size) (acc ++ out)
    else .ok (s, acc)
termination_by _ offset _ => data.length - offset
decreasing_by omega

/-- `_decompress_mszip`: header validation, chunk loop, final flush (whose
exceptions are swallowed), trim when the output exceeds the declared size,
and a warning — not an error — when the final length differs from the
declared size. -/
def decompress_mszip {σ : Type} (I : Inflater σ) (s0 : σ) (data : List Nat) :
    Except String (List Nat) :=
  if data = [] then .error "Empty compressed data"
  else if data.length < 24 then .error "MSZIP file too small (missing header)"
  else if data.take 6 ≠ mszipMagic then .error "Invalid MSZIP header"
  else
    match process_chunks I data (declaredSize data) s0 24 [] with
    | .error e => .error e
    | .ok (s, acc) =>
      let acc2 :=
        match I.flush s with
        | some extra => acc ++ extra
        | none => acc
      .ok (if declaredSize data < acc2.length then acc2.take (declaredSize data) else acc2)

/-- A concrete `Inflater` whose chunks are stored uncompressed, for witnesses:
state is trivial, each chunk decompresses to itself, flush yields nothing. -/
def idInflater : Inflater Unit where
  decompress := fun s chunk => some (s, chunk)
  flush := fun _ => some []

/-! ### `strip_nulls` from app/domain/winget_utils.py lines 4-14 (identical to
`_strip_nulls` in app/api/winget.py lines 21-31), over a JSON-shaped value
type. -/

/-- JSON-shaped Python values: dicts, lists, and scalars (None, bool, int,
str). -/
inductive Json where
  | null
  | bool (b : Bool)
  | num (n : Int)
  | str (s : String)
  | arr (elems : List Json)
  | obj (fields : List (String × Json))

mutual

/-- `strip_nulls`: dict keys whose (original) value is `None` are dropped,
remaining values are cleaned recursively; list elements are cleaned but never
dropped; scalars pass through. -/
def strip_nulls : Json → Json
  | .obj fields => .obj (strip_nulls_fields fields)
  | .arr elems => .arr (strip_nulls_list elems)
  | j => j

/-- The list comprehension `[strip_nulls(v) for v in value]`. -/
def strip_nulls_list : List Json → List Json
  | [] => []
  | j :: rest => strip_nulls j :: strip_nulls_list rest

/-- The dict comprehension `{k: strip_nulls(v) ... if v is not None}`. -/
def strip_nulls_fields : List (String × Json) → List (String × Json)
  | [] => []
  | (_, .null) :: rest => strip_nulls_fields rest
  | (k, v) :: rest => (k, strip_nulls v) :: strip_nulls_fields rest

end

mutual

/-- No dict anywhere in the value has a field whose value is `null`. -/
def no_null_fields : Json → Bool
  | .obj fields => no_null_fields_fields fields
  | .arr elems => no_null_fields_list elems
  | _ => true

def no_null_fields_list : List Json → Bool
  | [] => true
  | j :: rest => no_null_fields j && no_null_fields_list rest

def no_null_fields_fields : List (String × Json) → Bool
  | [] => true
  | (_, v) :: rest =>
    (match v with | .null => false | _ => true) && no_null_fields v && no_null_fields_fields rest

end

/-! ### The stored data model (app/domain/models.py): the fields consumed by
the search and manifest endpoints.  `datetime`-valued `release_date` is not
consumed by any claim and is omitted. -/

structure NestedInstallerFile where
  relative_file_path : String
  portable_command_alias : Option String := none
deriving DecidableEq

structure PackageCommonMetadata where
  package_identifier : String
  package_name : String
  publisher : String
  short_description : Option String := none
  license : Option String := none
  tags : List String := []
  homepage : Option String := none
  support_url : Option String := none
deriving DecidableEq

structure VersionMetadata where
  version : String
  architecture : String
  scope : Option String := none
  installer_type : String := "exe"
  installer_file : Option String := none
  installer_sha256 : Option String := none
  silent_arguments : Option String := none
  silent_with_progress_arguments : Option String := none
  interactive_arguments : Option String := none
  log_arguments : Option String := none
  product_code : Option String := none
  install_mode_interactive : Bool := true
  install_mode_silent : Bool := true
  install_mode_silent_with_progress : Bool := true
  requires_elevation : Bool := false
  package_dependencies : List String := []
  nested_installer_type : Option String := none
  nested_installer_files : List NestedInstallerFile := []
  release_notes : Option String := none
  storage_path : Option String := none
deriving DecidableEq

structure PackageIndex where
  package : PackageCommonMetadata
  versions : List VersionMetadata := []
deriving DecidableEq

/-- `index.packages` (a dict keyed by package identifier, modelled as an
insertion-ordered association list with distinct keys). -/
abbrev RepoPackages : Type := List (String × PackageIndex)

/-- `index.packages.get(package_id)`. -/
def lookupPkg (index : RepoPackages) (package_id : String) : Option PackageIndex :=
  ((index : List (String × PackageIndex)).find? (fun p => p.1 == package_id)).map (·.2)

/-! ### ManifestBuilder: `get_package_manifests` from app/api/winget.py lines
395-613.  The filesystem read of `_compute_installer_sha256` is an oracle
`disk : String → String → Option String` mapping `(storage_path,
installer_file)` to the file's hex digest, `none` when the file is missing or
unreadable. -/

/-- Python truthiness of an optional string. -/
def truthyStr : Option String → Bool
  | some s => !(s = "")
  | none => false

/-- `_compute_installer_sha256` (winget.py lines 34-61): `None` unless both
the installer file name and the storage path are truthy, then the on-disk
hash (oracle). -/
def compute_installer_sha256 (disk : String → String → Option String)
    (installer_file storage_path : Option String) : Option String :=
  match installer_file, storage_path with
  | some f, some p => if f = "" ∨ p = "" then none else disk p f
  | _, _ => none

/-- `v.installer_sha256 or _compute_installer_sha256(...)` (winget.py lines
461-464). -/
def resolve_sha256 (disk : String → String → Option String)
    (v : VersionMetadata) : Option String :=
  if truthyStr v.installer_sha256 then v.installer_sha256
  else compute_installer_sha256 disk v.installer_file v.storage_path

/-- Python f-string rendering of `Optional[str]` (an absent scope prints as
`None`). -/
def optStr : Option String → String
  | some s => s
  | none => "None"

/-- One emitted installer dict of the manifest document (the constant-valued
protocol fields are omitted; every field whose value depends on the stored
record is kept). -/
structure ManifestInstallerEntry where
  installerIdentifier : String
  installerSha256 : String
  installerUrl : String
  architecture : String
  installerType : String
  scope : String
  installModes : List String
  silentSwitch : Option String
  silentWithProgressSwitch : Option String
  interactiveSwitch : Option String
  logSwitch : Option String
  packageDependencies : List String
  productCode : Option String
  elevationRequirement : String
  nestedInstallerType : Option String
  nestedInstallerFiles : List NestedInstallerFile
deriving DecidableEq

/-- The body of the per-installer loop (winget.py lines 454-589): `none`
models `continue` (the silent skip when no SHA-256 resolves), `some` the
appended installer dict. -/
def build_installer_entry (base_url package_id : String)
    (disk : String → String → Option String) (v : VersionMetadata) :
    Option ManifestInstallerEntry :=
  let installer_identifier := v.version ++ "-" ++ v.architecture ++ "-" ++ optStr v.scope
  let installer_url := base_url ++ "/winget/packages/" ++ package_id ++ "/versions/"
    ++ installer_identifier ++ "/installer"
  match resolve_sha256 disk v with
  | none => none
  | some sha =>
    if sha = "" then none
    else
      let installer_type_value := if v.installer_type = "custom" then "zip" else v.installer_type
      let nested_type : Option String :=
        if v.installer_type = "custom" then some "exe"
        else if v.installer_type = "zip" then v.nested_installer_type
        else none
      let nested_files : List NestedInstallerFile :=
        if v.installer_type = "custom" then
          [{ relative_file_path := "install.bat", portable_command_alias := none }]
        else if v.installer_type = "zip" then v.nested_installer_files
        else []
      let install_modes :=
        (if v.install_mode_interactive then ["interactive"] else [])
        ++ (if v.install_mode_silent then ["silent"] else [])
        ++ (if v.install_mode_silent_with_progress then ["silentWithProgress"] else [])
      some
        { installerIdentifier := installer_identifier,
          installerSha256 := sha,
          installerUrl := installer_url,
          architecture := v.architecture,
          installerType := installer_type_value,
          scope := optStr v.scope,
          installModes := install_modes,
          silentSwitch := v.silent_arguments,
          silentWithProgressSwitch :=
            match v.silent_with_progress_arguments with
            | some s => if s = "" then v.silent_arguments else some s
            | none => v.silent_arguments,
          interactiveSwitch := v.interactive_arguments,
          logSwitch := v.log_arguments,
          packageDependencies := v.package_dependencies,
          productCode := v.product_code,
          elevationRequirement := if v.requires_elevation then "elevationRequired" else "none",
          nestedInstallerType := nested_type,
          nestedInstallerFiles := nested_files }

/-- One entry of the document's `Versions` list (the `DefaultLocale` block
depends only on package metadata and `v0.release_notes` and is immaterial to
the claims; `PackageVersion` and `Installers` are kept). -/
structure ManifestVersionEntry where
  packageVersion : String
  installers : List ManifestInstallerEntry
deriving DecidableEq

/-- Descending Python-string order used for
`sorted(versions_by_version.items(), reverse=True)` (keys are distinct, so
only the key part of each tuple is ever compared). -/
def strDescLe (a b : String) : Bool := !(strLtB a b)

/-- The `Versions` list of the manifest document (winget.py lines 407-599):
group the stored version records by version string (`setdefault` insertion
order), iterate groups in descending version-string order, and append one
entry per group — whether or not any installer of the group survived the
SHA-256 skip. -/
def build_version_entries (base_url package_id : String)
    (disk : String → String → Option String) (versions : List VersionMetadata) :
    List ManifestVersionEntry :=
  let keys := sortByLe strDescLe (firstDedup (versions.map (·.version)))
  keys.map (fun ver =>
    { packageVersion := ver,
      installers := (versions.filter (fun v => v.version == ver)).filterMap
        (build_installer_entry base_url package_id disk) })

/-- The `Data` part of the `packageManifests` response. -/
structure PackageManifestData where
  packageIdentifier : String
  versions : List ManifestVersionEntry
deriving DecidableEq

/-- `get_package_manifests` (winget.py lines 395-613): `none` models the 404
for an unknown package id.  (`_strip_nulls` on the rendered dict removes
`None`-valued optional fields but never list elements, so it does not affect
which versions or installers appear; the typed document is returned
unstripped.) -/
def get_package_manifests (index : RepoPackages) (package_id base_url : String)
    (disk : String → String → Option String) : Option PackageManifestData :=
  match lookupPkg index package_id with
  | none => none
  | some pkg_index =>
    some { packageIdentifier := package_id,
           versions := build_version_entries base_url package_id disk pkg_index.versions }

/-! ### SearchService: `manifest_search` from app/api/winget.py lines 272-387,
with its helpers `_values_for_field`, `_package_matches_filter` and
`_package_matches_query` (lines 164-269). -/

structure RequestMatch where
  keyWord : Option String := none
  matchType : Option String := none
deriving DecidableEq

structure PackageMatchFilter where
  packageMatchField : String
  requestMatch : RequestMatch
deriving DecidableEq

structure ManifestSearchRequest where
  maximumResults : Option Int := none
  fetchAllManifests : Option Bool := none
  query : Option RequestMatch := none
  inclusions : List PackageMatchFilter := []
  filters : List PackageMatchFilter := []
deriving DecidableEq

/-- `_values_for_field` (winget.py lines 164-214): the supported fields and
their value lists; `Moniker`, `Command`, `PackageFamilyName`, `UpgradeCode`,
`NormalizedPackageNameAndPublisher`, `Market`, `HasInstallerType` and unknown
fields all return the empty list (their explicit branches and the fallback
coincide). -/
def values_for_field (field : String) (package_id : String)
    (pkg_index : PackageIndex) : List String :=
  let pkg := pkg_index.package
  if field = "PackageIdentifier" then [package_id]
  else if field = "PackageName" then
    (if pkg.package_name = "" then [] else [pkg.package_name])
  else if field = "Tag" then pkg.tags
  else if field = "ProductCode" then
    pkg_index.versions.filterMap (fun v =>
      match v.product_code with
      | some c => if c = "" then none else some c
      | none => none)
  else []

/-- `_package_matches_filter` (winget.py lines 217-238): the keyword defaults
to `""` (never `None` here), the filter fails when the field has no values,
and succeeds when any value matches.  (The `not flt or not flt.RequestMatch`
guard can never fire on a parsed pydantic body and is dropped.) -/
def package_matches_filter (package_id : String) (pkg_index : PackageIndex)
    (flt : PackageMatchFilter) : Bool :=
  let keyword := flt.requestMatch.keyWord.getD ""
  let values := values_for_field flt.packageMatchField package_id pkg_index
  values.any (fun v => match_text v (some keyword) flt.requestMatch.matchType)

/-- `_package_matches_query` (winget.py lines 241-269): `False` without a
truthy keyword, else the keyword is matched against identifier, name,
publisher and every tag.  (`package_name or ""` / `publisher or ""` are the
identity on the required string fields.) -/
def package_matches_query (package_id : String) (pkg_index : PackageIndex)
    (query : Option RequestMatch) : Bool :=
  match query with
  | none => false
  | some q =>
    match q.keyWord with
    | none => false
    | some kw =>
      if kw = "" then false
      else
        let pkg := pkg_index.package
        ([package_id, pkg.package_name, pkg.publisher] ++ pkg.tags).any
          (fun value => match_text value (some kw) q.matchType)

/-- Truthiness of `body.Query and body.Query.KeyWord`. -/
def queryProvided (body : ManifestSearchRequest) : Bool :=
  match body.query with
  | none => false
  | some q =>
    match q.keyWord with
    | none => false
    | some kw => !(kw = "")

/-- Step 1 of `manifest_search` (winget.py lines 283-307): the candidate set.
The Python `set` is modelled as the sublist of the (distinct) dict keys whose
package matches the Query or some Inclusion; set iteration order is
unspecified in Python, and the theorems below only use membership, emptiness
and counts. -/
def candidate_ids (index : RepoPackages) (body : ManifestSearchRequest) :
    List String :=
  let all_ids := (index : List (String × PackageIndex)).map (·.1)
  if body.fetchAllManifests = some true then all_ids
  else
    let base := ((index : List (String × PackageIndex)).filter (fun p =>
      package_matches_query p.1 p.2 body.query
        || body.inclusions.any (fun inc => package_matches_filter p.1 p.2 inc))).map (·.1)
    if base = [] ∧ queryProvided body = false ∧ body.inclusions = [] then all_ids
    else base

/-- Step 2 of `manifest_search` (winget.py lines 309-323): keep the candidates
whose package satisfies every Filter (a candidate whose id is missing from the
dict is skipped; unreachable for ids drawn from the dict itself). -/
def filtered_ids (index : RepoPackages) (body : ManifestSearchRequest) :
    List String :=
  (candidate_ids index body).filter (fun pid =>
    match lookupPkg index pid with
    | none => false
    | some pkg_index => body.filters.all (package_matches_filter pid pkg_index))

structure SearchVersionInfo where
  packageVersion : String
  productCodes : List String
deriving DecidableEq

structure SearchResultEntry where
  packageIdentifier : String
  packageName : String
  publisher : String
  versions : List SearchVersionInfo
deriving DecidableEq

/-- Ascending Python-string order (for `sorted(...)`). -/
def strAscLe (a b : String) : Bool := !(strLtB b a)

/-- One result of step 3 (winget.py lines 327-369): the deduplicated non-empty
version strings, sorted descending; per version the deduplicated truthy
product codes, sorted ascending; `none` models the `continue` that drops a
package whose versions payload is empty. -/
def build_search_entry (package_id : String) (pkg_index : PackageIndex) :
    Option SearchResultEntry :=
  let version_strings := sortByLe strDescLe (firstDedup
    (pkg_index.versions.filterMap (fun v => if v.version = "" then none else some v.version)))
  let versions_payload := version_strings.map (fun ver =>
    { packageVersion := ver,
      productCodes := sortByLe strAscLe (firstDedup
        ((pkg_index.versions.filter (fun v => v.version == ver)).filterMap (fun v =>
          match v.product_code with
          | some c => if c = "" then none else some c
          | none => none))) })
  if versions_payload = [] then none
  else
    some { packageIdentifier := package_id,
           packageName := pkg_index.package.package_name,
           publisher := pkg_index.package.publisher,
           versions := versions_payload }

/-- The full uncapped results list of `manifest_search`. -/
def search_results (index : RepoPackages) (body : ManifestSearchRequest) :
    List SearchResultEntry :=
  (filtered_ids index body).filterMap (fun pid =>
    match lookupPkg index pid with
    | none => none
    | some pkg_index => build_search_entry pid pkg_index)

/-- The two protocol outcomes of `manifest_search`: `204 No Content`, or `200`
with a results array. -/
inductive SearchResponse where
  | noContent
  | ok (results : List SearchResultEntry)
deriving DecidableEq

/-- `manifest_search` (winget.py lines 371-387): `204` exactly when the
results list is empty, otherwise `200` with the list truncated to
`MaximumResults` when that value is supplied and positive. -/
def manifest_search (index : RepoPackages) (body : ManifestSearchRequest) :
    SearchResponse :=
  let results := search_results index body
  if results = [] then .noContent
  else
    match body.maximumResults with
    | some m => if 0 < m then .ok (results.take m.toNat) else .ok results
    | none => .ok results

/-- The results carried by a response (empty for `204`). -/
def response_results : SearchResponse → List SearchResultEntry
  | .noContent => []
  | .ok results => results

/-- A 33-byte MSZIP container whose single chunk carries a bad 2-byte
signature (`XX` instead of `CK`): valid magic, declared size 10, chunk size
5. -/
def mszipBadSigExample : List Nat :=
  mszipMagic ++ [0, 0] ++ [10, 0, 0, 0, 0, 0, 0, 0] ++ [0, 0, 0, 0, 0, 0, 0, 0]
    ++ [5, 0, 0, 0] ++ [88, 88] ++ [1, 2, 3]

/-- A well-formed 33-byte MSZIP container whose single `CK` chunk carries the
3 bytes `[1, 2, 3]` while the header declares an uncompressed size of 10 —
the declared-size mismatch the decompressor tolerates. -/
def mszipShortExample : List Nat :=
  mszipMagic ++ [0, 0] ++ [10, 0, 0, 0, 0, 0, 0, 0] ++ [0, 0, 0, 0, 0, 0, 0, 0]
    ++ [5, 0, 0, 0] ++ [0x43, 0x4b] ++ [1, 2, 3]

/-- A one-package repository index for witnesses. -/
def exPkgIndex : PackageIndex :=
  { package := { package_identifier := "Ex.App", package_name := "Example",
                 publisher := "ExPub", tags := ["editor"] },
    versions := [{ version := "1.0", architecture := "x64", scope := some "user",
                   product_code := some "PC-1" }] }

def exRepo : RepoPackages := [("Ex.App", exPkgIndex)]

/-- The empty search request (all pydantic defaults). -/
def exEmptyBody : ManifestSearchRequest := {}

/-- A request whose single Filter targets a field the code resolves to no
values (`Moniker`), eliminating every candidate. -/
def exFilteredOutBody : ManifestSearchRequest :=
  { filters := [{ packageMatchField := "Moniker",
                  requestMatch := { keyWord := some "x" } }] }

/-- The empty request with a positive result cap. -/
def exCapBody : ManifestSearchRequest := { maximumResults := some 1 }

/-! ## Helper lemmas -/

/-! ### Lexicographic order theory -/

theorem lexLt_irrefl {α : Type _} (lt : α → α → Bool) [DecidableEq α]
    (hirr : ∀ a, lt a a = false) : ∀ l, lexLt lt l l = false
  | [] => rfl
  | a :: as => by simp [lexLt, hirr a, lexLt_irrefl lt hirr as]

theorem lexLt_asymm {α : Type _} (lt : α → α → Bool) [DecidableEq α]
    (hasym : ∀ a b, lt a b = true → lt b a = false) :
    ∀ l m, lexLt lt l m = true → lexLt lt m l = false
  | [], [], h => by simp [lexLt] at h
  | [], _ :: _, _ => rfl
  | _ :: _, [], h => by simp [lexLt] at h
  | a :: as, b :: bs, h => by
    have hirr : ∀ x, lt x x = false := by
      intro x
      by_cases hx : lt x x = true
      · exact (hasym x x hx)
      · exact Bool.eq_false_iff.mpr hx
    simp only [lexLt, Bool.or_eq_true, Bool.and_eq_true, decide_eq_true_eq] at h
    rcases h with h | ⟨rfl, h⟩
    · have h1 : lt b a = false := hasym a b h
      have h2 : decide (b = a) = false := by
        simp only [decide_eq_false_iff_not]
        intro he
        subst he
        rw [hirr b] at h
        exact Bool.noConfusion h
      simp [lexLt, h1, h2]
    · have h1 : lt a a = false := hirr a
      have h2 : lexLt lt bs as = false := lexLt_asymm lt hasym as bs h
      simp [lexLt, h1, h2]

theorem lexLt_trans {α : Type _} (lt : α → α → Bool) [DecidableEq α]
    (htrans : ∀ a b c, lt a b = true → lt b c = true → lt a c = true) :
    ∀ l m n, lexLt lt l m = true → lexLt lt m n = true → lexLt lt l n = true
  | [], [], _, h, _ => by simp [lexLt] at h
  | [], _ :: _, [], _, h => by simp [lexLt] at h
  | [], _ :: _, _ :: _, _, _ => rfl
  | _ :: _, [], _, h, _ => by simp [lexLt] at h
  | _ :: _, _ :: _, [], _, h => by simp [lexLt] at h
  | a :: as, b :: bs, c :: cs, h1, h2 => by
    simp only [lexLt, Bool.or_eq_true, Bool.and_eq_true, decide_eq_true_eq] at h1 h2 ⊢
    rcases h1 with h1 | ⟨rfl, h1⟩
    · rcases h2 with h2 | ⟨rfl, h2⟩
      · exact Or.inl (htrans a b c h1 h2)
      · exact Or.inl h1
    · rcases h2 with h2 | ⟨rfl, h2⟩
      · exact Or.inl h2
      · exact Or.inr ⟨rfl, lexLt_trans lt htrans as bs cs h1 h2⟩

theorem lexLt_connex {α : Type _} (lt : α → α → Bool) [DecidableEq α]
    (htri : ∀ a b, a ≠ b → lt a b = true ∨ lt b a = true) :
    ∀ l m, l ≠ m → lexLt lt l m = true ∨ lexLt lt m l = true
  | [], [], h => absurd rfl h
  | [], _ :: _, _ => Or.inl rfl
  | _ :: _, [], _ => Or.inr rfl
  | a :: as, b :: bs, h => by
    by_cases hab : a = b
    · subst hab
      have hne : as ≠ bs := by
        intro hcontra
        exact h (by rw [hcontra])
      rcases lexLt_connex lt htri as bs hne with h' | h'
      · exact Or.inl (by simp [lexLt, h'])
      · exact Or.inr (by simp [lexLt, h'])
    · rcases htri a b hab with h' | h'
      · exact Or.inl (by simp [lexLt, h'])
      · exact Or.inr (by simp [lexLt, h'])

/-! ### Base orders: characters, integers, segments -/

theorem charLtB_asymm (a b : Char) (h : charLtB a b = true) : charLtB b a = false := by
  simp only [charLtB, decide_eq_true_eq] at h
  simp only [charLtB, decide_eq_false_iff_not]
  exact not_lt_of_lt h

theorem charLtB_trans (a b c : Char) (h1 : charLtB a b = true) (h2 : charLtB b c = true) :
    charLtB a c = true := by
  simp only [charLtB, decide_eq_true_eq] at h1 h2 ⊢
  exact lt_trans h1 h2

theorem charLtB_connex (a b : Char) (h : a ≠ b) : charLtB a b = true ∨ charLtB b a = true := by
  simp only [charLtB, decide_eq_true_eq]
  exact lt_or_gt_of_ne h

theorem segLtB_asymm (a b : Seg) (h : segLtB a b = true) : segLtB b a = false := by
  cases a with
  | num x =>
    cases b with
    | num y =>
      simp only [segLtB, decide_eq_true_eq] at h
      simp only [segLtB, decide_eq_false_iff_not]
      exact not_lt_of_lt h
    | str t => rfl
  | str s =>
    cases b with
    | num y => simp [segLtB] at h
    | str t => exact lexLt_asymm charLtB charLtB_asymm s.data t.data h

theorem segLtB_trans (a b c : Seg) (h1 : segLtB a b = true) (h2 : segLtB b c = true) :
    segLtB a c = true := by
  cases a with
  | num x =>
    cases b with
    | num y =>
      cases c with
      | num z =>
        simp only [segLtB, decide_eq_true_eq] at h1 h2 ⊢
        exact lt_trans h1 h2
      | str t => rfl
    | str t =>
      cases c with
      | num z => simp [segLtB] at h2
      | str u => rfl
  | str s =>
    cases b with
    | num y => simp [segLtB] at h1
    | str t =>
      cases c with
      | num z => simp [segLtB] at h2
      | str u => exact lexLt_trans charLtB charLtB_trans s.data t.data u.data h1 h2

theorem segLtB_connex (a b : Seg) (h : a ≠ b) : segLtB a b = true ∨ segLtB b a = true := by
  cases a with
  | num x =>
    cases b with
    | num y =>
      have : x ≠ y := by
        intro hcontra
        exact h (by rw [hcontra])
      simp only [segLtB, decide_eq_true_eq]
      exact lt_or_gt_of_ne this
    | str t => exact Or.inl rfl
  | str s =>
    cases b with
    | num y => exact Or.inr rfl
    | str t =>
      have : s.data ≠ t.data := by
        intro hcontra
        apply h
        cases s
        cases t
        simp_all
      exact lexLt_connex charLtB charLtB_connex s.data t.data this

theorem segListLt_asymm (a b : List Seg) (h : segListLt a b = true) : segListLt b a = false :=
  lexLt_asymm segLtB segLtB_asymm a b h

theorem segListLt_trans (a b c : List Seg) (h1 : segListLt a b = true)
    (h2 : segListLt b c = true) : segListLt a c = true :=
  lexLt_trans segLtB segLtB_trans a b c h1 h2

theorem segListLt_connex (a b : List Seg) (h : a ≠ b) :
    segListLt a b = true ∨ segListLt b a = true :=
  lexLt_connex segLtB segLtB_connex a b h

theorem strLtB_asymm (a b : String) (h : strLtB a b = true) : strLtB b a = false :=
  lexLt_asymm charLtB charLtB_asymm a.data b.data h

theorem strLtB_trans (a b c : String) (h1 : strLtB a b = true) (h2 : strLtB b c = true) :
    strLtB a c = true :=
  lexLt_trans charLtB charLtB_trans a.data b.data c.data h1 h2

theorem strLtB_connex (a b : String) (h : a ≠ b) : strLtB a b = true ∨ strLtB b a = true := by
  apply lexLt_connex charLtB charLtB_connex
  intro hcontra
  apply h
  cases a
  cases b
  simp_all

/-! ### From a strict order to the boolean total preorder used by the sorts -/

theorem notLt_total {γ : Type _} (ltK : γ → γ → Bool)
    (hasym : ∀ x y, ltK x y = true → ltK y x = false) (a b : γ) :
    (!(ltK a b) || !(ltK b a)) = true := by
  by_cases h : ltK a b = true
  · simp [hasym a b h]
  · simp [Bool.eq_false_iff.mpr h]

theorem notLt_trans {γ : Type _} (ltK : γ → γ → Bool)
    (htrans : ∀ x y z, ltK x y = true → ltK y z = true → ltK x z = true)
    (hconnex : ∀ x y, x ≠ y → ltK x y = true ∨ ltK y x = true)
    (a b c : γ) (h1 : (!(ltK a b)) = true) (h2 : (!(ltK b c)) = true) :
    (!(ltK a c)) = true := by
  simp only [Bool.not_eq_true'] at h1 h2 ⊢
  by_cases hac : ltK a c = true
  · by_cases hab : a = b
    · subst hab
      rw [h2] at hac
      exact Bool.noConfusion hac
    · rcases hconnex a b hab with h' | h'
      · rw [h1] at h'
        exact Bool.noConfusion h'
      · have := htrans b a c h' hac
        rw [h2] at this
        exact Bool.noConfusion this
  · exact Bool.eq_false_iff.mpr hac

/-! ### Stable insertion sort -/

theorem mem_insertLe {α : Type _} (le : α → α → Bool) (a x : α) :
    ∀ l, x ∈ insertLe le a l ↔ x = a ∨ x ∈ l
  | [] => by simp [insertLe]
  | b :: bs => by
    by_cases h : le a b = true
    · simp [insertLe, h]
    · simp [insertLe, Bool.eq_false_iff.mpr h, mem_insertLe le a x bs]
      tauto

theorem mem_sortByLe {α : Type _} (le : α → α → Bool) (x : α) :
    ∀ l, x ∈ sortByLe le l ↔ x ∈ l
  | [] => by simp [sortByLe]
  | a :: as => by
    have hrec : x ∈ sortByLe le as ↔ x ∈ as := mem_sortByLe le x as
    show x ∈ insertLe le a (sortByLe le as) ↔ _
    rw [mem_insertLe le a x (sortByLe le as), hrec]
    simp

theorem insertLe_ne_nil {α : Type _} (le : α → α → Bool) (a : α) :
    ∀ l, insertLe le a l ≠ []
  | [] => by simp [insertLe]
  | b :: bs => by
    by_cases h : le a b = true
    · simp [insertLe, h]
    · simp [insertLe, Bool.eq_false_iff.mpr h]

theorem sortByLe_eq_nil_iff {α : Type _} (le : α → α → Bool) :
    ∀ l, sortByLe le l = [] ↔ l = []
  | [] => by simp [sortByLe]
  | a :: as => by
    constructor
    · intro h
      exact absurd h (insertLe_ne_nil le a (sortByLe le as))
    · intro h
      exact absurd h (by simp)

theorem pairwise_insertLe {α : Type _} (le : α → α → Bool)
    (htot : ∀ x y, (le x y || le y x) = true)
    (htr : ∀ x y z, le x y = true → le y z = true → le x z = true) (a : α) :
    ∀ l, List.Pairwise (fun x y => le x y = true) l →
      List.Pairwise (fun x y => le x y = true) (insertLe le a l)
  | [], _ => by simp [insertLe]
  | b :: bs, hp => by
    rcases List.pairwise_cons.mp hp with ⟨hb, hbs⟩
    by_cases h : le a b = true
    · rw [insertLe, if_pos h]
      refine List.pairwise_cons.mpr ⟨?_, hp⟩
      intro y hy
      rcases List.mem_cons.mp hy with rfl | hy'
      · exact h
      · exact htr a b y h (hb y hy')
    · rw [insertLe, if_neg h]
      refine List.pairwise_cons.mpr ⟨?_, pairwise_insertLe le htot htr a bs hbs⟩
      intro y hy
      rcases (mem_insertLe le a y bs).mp hy with heq | hy'
      · rw [heq]
        rcases Bool.or_eq_true_iff.mp (htot a b) with h' | h'
        · exact absurd h' h
        · exact h'
      · exact hb y hy'

theorem pairwise_sortByLe {α : Type _} (le : α → α → Bool)
    (htot : ∀ x y, (le x y || le y x) = true)
    (htr : ∀ x y z, le x y = true → le y z = true → le x z = true) :
    ∀ l, List.Pairwise (fun x y => le x y = true) (sortByLe le l)
  | [] => by simp [sortByLe]
  | a :: as => pairwise_insertLe le htot htr a (sortByLe le as) (pairwise_sortByLe le htot htr as)

/-- The head of a stable sort is a minimum of the input with respect to the
sorting preorder. -/
theorem sortByLe_head_min {α : Type _} (le : α → α → Bool)
    (htot : ∀ x y, (le x y || le y x) = true)
    (htr : ∀ x y z, le x y = true → le y z = true → le x z = true)
    (l : List α) (x : α) (h : (sortByLe le l).head? = some x) :
    ∀ y ∈ l, le x y = true := by
  intro y hy
  have hy' : y ∈ sortByLe le l := (mem_sortByLe le y l).mpr hy
  have hp := pairwise_sortByLe le htot htr l
  rcases hs : sortByLe le l with _ | ⟨z, zs⟩
  · rw [hs] at h
    exact Option.noConfusion h
  · rw [hs] at h hy' hp
    have hzx : z = x := by injection h
    rcases List.mem_cons.mp hy' with heq | hy''
    · rw [heq, ← hzx]
      rcases Bool.or_eq_true_iff.mp (htot z z) with h' | h' <;> exact h'
    · rw [← hzx]
      exact (List.pairwise_cons.mp hp).1 y hy''

/-! ### First-occurrence deduplication -/

theorem mem_firstDedupGo {α : Type _} [DecidableEq α] (x : α) :
    ∀ (l seen : List α), x ∈ firstDedupGo seen l ↔ x ∈ l ∧ x ∉ seen
  | [], seen => by simp [firstDedupGo]
  | a :: as, seen => by
    by_cases h : a ∈ seen
    · rw [firstDedupGo, if_pos h, mem_firstDedupGo x as seen]
      constructor
      · intro ⟨h1, h2⟩
        exact ⟨List.mem_cons_of_mem a h1, h2⟩
      · intro ⟨h1, h2⟩
        rcases List.mem_cons.mp h1 with rfl | h1'
        · exact absurd h h2
        · exact ⟨h1', h2⟩
    · rw [firstDedupGo, if_neg h]
      constructor
      · intro h1
        rcases List.mem_cons.mp h1 with rfl | h1'
        · exact ⟨List.mem_cons_self x as, h⟩
        · rcases (mem_firstDedupGo x as (a :: seen)).mp h1' with ⟨h2, h3⟩
          refine ⟨List.mem_cons_of_mem a h2, ?_⟩
          intro hcontra
          exact h3 (List.mem_cons_of_mem a hcontra)
      · intro ⟨h1, h2⟩
        rcases List.mem_cons.mp h1 with rfl | h1'
        · exact List.mem_cons_self x _
        · by_cases hxa : x = a
          · subst hxa
            exact List.mem_cons_self x _
          · refine List.mem_cons_of_mem a ((mem_firstDedupGo x as (a :: seen)).mpr ⟨h1', ?_⟩)
            intro hcontra
            rcases List.mem_cons.mp hcontra with h' | h'
            · exact hxa h'
            · exact h2 h'

theorem mem_firstDedup {α : Type _} [DecidableEq α] (x : α) (l : List α) :
    x ∈ firstDedup l ↔ x ∈ l := by
  rw [firstDedup, mem_firstDedupGo]
  simp

theorem firstDedup_eq_nil_iff {α : Type _} [DecidableEq α] :
    ∀ l : List α, firstDedup l = [] ↔ l = []
  | [] => by simp [firstDedup, firstDedupGo]
  | a :: as => by
    rw [firstDedup, firstDedupGo]
    simp

/-- The head of a list, when `head?` succeeds, is a member. -/
theorem mem_of_headq_eq {α : Type _} : ∀ (l : List α) (x : α), l.head? = some x → x ∈ l
  | [], _, h => Option.noConfusion h
  | a :: _, x, h => by
    injection h with h
    rw [h]
    exact List.mem_cons_self _ _

/-- Totality of the descending `version_key` preorder. -/
theorem vdDescLe_total (a b : VersionData) : (vdDescLe a b || vdDescLe b a) = true :=
  notLt_total segListLt segListLt_asymm (version_key a.version) (version_key b.version)

/-- Transitivity of the descending `version_key` preorder. -/
theorem vdDescLe_trans (a b c : VersionData) (h1 : vdDescLe a b = true)
    (h2 : vdDescLe b c = true) : vdDescLe a c = true :=
  notLt_trans segListLt segListLt_trans segListLt_connex
    (version_key a.version) (version_key b.version) (version_key c.version) h1 h2

/-! ## Claim theorems -/

/-- C5: `version_key` maps a version string to a tuple of tagged segments
(splitting on `.` and `-`, `(0, int)` for numeric parts, `(1, str)`
otherwise); numeric segments order strictly before string segments at the
same position, numeric segments compare as integers, and under the induced
tuple order `"1.9.0"` is strictly before `"1.10.0"` while `"1.0-beta"` is
strictly after `"1.0"`. -/
theorem c5_version_key_order :
    (∀ (n : Int) (s : String), segLtB (Seg.num n) (Seg.str s) = true)
    ∧ (∀ a b : Int, segLtB (Seg.num a) (Seg.num b) = decide (a < b))
    ∧ version_key "1.9.0" = [Seg.num 1, Seg.num 9, Seg.num 0]
    ∧ version_key "1.10.0" = [Seg.num 1, Seg.num 10, Seg.num 0]
    ∧ version_key "1.0-beta" = [Seg.num 1, Seg.num 0, Seg.str "beta"]
    ∧ segListLt (version_key "1.9.0") (version_key "1.10.0") = true
    ∧ segListLt (version_key "1.10.0") (version_key "1.9.0") = false
    ∧ segListLt (version_key "1.0") (version_key "1.0-beta") = true
    ∧ segListLt (version_key "1.0-beta") (version_key "1.0") = false :=
  ⟨fun _ _ => rfl, fun _ _ => rfl, by decide, by decide, by decide, by decide, by decide,
   by decide, by decide⟩

/-- C6: `_select_latest_version_data` keeps exactly one candidate per
`(architecture, scope, installer-type)` group of the type-filtered input —
a member of the input that passes the filter and whose `version_key` is
maximal within its group — and on the three-candidate example from the spec
it yields exactly the 2.0/x64 and 1.5/x86 candidates. -/
theorem c6_select_latest_per_group :
    (select_latest_version_data [exCand10, exCand20, exCand15] [] = [exCand20, exCand15])
    ∧ (∀ (data : List VersionData) (types : List String) (vd : VersionData),
        vd ∈ select_latest_version_data data types →
          vd ∈ data ∧ passesTypeFilter types vd = true)
    ∧ (∀ (data : List VersionData) (types : List String) (vd vd2 : VersionData),
        vd ∈ select_latest_version_data data types →
        vd2 ∈ data → passesTypeFilter types vd2 = true →
        vdGroupKey vd2 = vdGroupKey vd →
          vdDescLe vd vd2 = true) := by
  refine ⟨by decide, ?_, ?_⟩
  · intro data types vd hvd
    rw [select_latest_version_data] at hvd
    rcases List.mem_filterMap.mp hvd with ⟨k, _, hk⟩
    have h1 : vd ∈ sortByLe vdDescLe
        ((data.filter (passesTypeFilter types)).filter (fun v => vdGroupKey v = k)) :=
      mem_of_headq_eq _ vd hk
    have h2 := (mem_sortByLe vdDescLe vd _).mp h1
    have h3 := List.mem_filter.mp h2
    have h4 := List.mem_filter.mp h3.1
    exact ⟨h4.1, h4.2⟩
  · intro data types vd vd2 hvd hvd2 hpass hkey
    rw [select_latest_version_data] at hvd
    rcases List.mem_filterMap.mp hvd with ⟨k, _, hk⟩
    have h1 : vd ∈ sortByLe vdDescLe
        ((data.filter (passesTypeFilter types)).filter (fun v => vdGroupKey v = k)) :=
      mem_of_headq_eq _ vd hk
    have h2 := (mem_sortByLe vdDescLe vd _).mp h1
    have hvdk : vdGroupKey vd = k := of_decide_eq_true (List.mem_filter.mp h2).2
    have hvd2' : vd2 ∈ (data.filter (passesTypeFilter types)).filter
        (fun v => vdGroupKey v = k) := by
      refine List.mem_filter.mpr ⟨List.mem_filter.mpr ⟨hvd2, hpass⟩, ?_⟩
      exact decide_eq_true (by rw [hkey, hvdk])
    exact sortByLe_head_min vdDescLe vdDescLe_total vdDescLe_trans _ vd hk vd2 hvd2'

/-- Witness for C6: the generic parts applied to the spec's example — the
selected 2.0/x64 candidate is a member of the input passing the (empty) type
filter, and its `version_key` is maximal within the x64/user/exe group. -/
theorem c6_select_latest_per_group_witness :
    exCand20 ∈ [exCand10, exCand20, exCand15]
    ∧ passesTypeFilter [] exCand20 = true
    ∧ vdDescLe exCand20 exCand10 = true := by
  refine ⟨?_, ?_, ?_⟩
  · exact (c6_select_latest_per_group.2.1 [exCand10, exCand20, exCand15] [] exCand20
      (by decide)).1
  · exact (c6_select_latest_per_group.2.1 [exCand10, exCand20, exCand15] [] exCand20
      (by decide)).2
  · exact c6_select_latest_per_group.2.2 [exCand10, exCand20, exCand15] [] exCand20 exCand10
      (by decide) (by decide) (by decide) (by decide)

/-- `isPrefB` decides the prefix relation. -/
theorem isPrefB_iff : ∀ a b : List Char, isPrefB a b = true ↔ ∃ t, b = a ++ t
  | [], b => by
    simp [isPrefB]
  | a :: as, [] => by
    simp [isPrefB]
  | a :: as, c :: cs => by
    simp only [isPrefB, Bool.and_eq_true, beq_iff_eq, isPrefB_iff as cs, List.cons_append,
      List.cons.injEq]
    constructor
    · intro ⟨h1, t, h2⟩
      exact ⟨t, h1.symm, h2⟩
    · intro ⟨t, h1, h2⟩
      exact ⟨h1.symm, t, h2⟩

/-- `containsSub` decides the contiguous-substring relation. -/
theorem containsSub_iff (v k : List Char) :
    containsSub v k = true ↔ ∃ pre post, v = pre ++ k ++ post := by
  rw [containsSub, List.any_eq_true]
  constructor
  · intro ⟨i, _, hpref⟩
    rcases (isPrefB_iff k (v.drop i)).mp hpref with ⟨t, ht⟩
    refine ⟨v.take i, t, ?_⟩
    conv_lhs => rw [← List.take_append_drop i v]
    rw [ht, List.append_assoc]
  · intro ⟨pre, post, hv⟩
    refine ⟨pre.length, ?_, ?_⟩
    · rw [List.mem_range, hv]
      simp only [List.length_append]
      omega
    · rw [hv, List.append_assoc, List.drop_left]
      exact (isPrefB_iff k (k ++ post)).mpr ⟨post, rfl⟩

/-- C7: `match_text` behaves per mode as specified: `Exact` is case-sensitive
equality; `CaseInsensitive` is lower-cased equality; `StartsWith` is
lower-cased prefix; `Substring`, `Fuzzy` and `FuzzySubstring` all are
lower-cased containment; `Wildcard` is a case-insensitive anchored glob
match; any unrecognized or absent mode falls back to case-insensitive
containment; and an absent (`None`) keyword never matches under any mode.
The prefix and containment primitives are characterised extensionally, and
the spec's three examples are evaluated. -/
theorem c7_match_text_modes :
    (∀ (v : String) (mt : Option String), match_text v none mt = false)
    ∧ (∀ v k : String, match_text v (some k) (some "Exact") = (v == k))
    ∧ (∀ v k : String, match_text v (some k) (some "CaseInsensitive")
        = (lowerStr v == lowerStr k))
    ∧ (∀ v k : String, match_text v (some k) (some "StartsWith")
        = isPrefB (lowerStr k).data (lowerStr v).data)
    ∧ (∀ v k : String,
        match_text v (some k) (some "Substring")
            = containsSub (lowerStr v).data (lowerStr k).data
          ∧ match_text v (some k) (some "Fuzzy") = match_text v (some k) (some "Substring")
          ∧ match_text v (some k) (some "FuzzySubstring")
            = match_text v (some k) (some "Substring"))
    ∧ (∀ v k : String, match_text v (some k) (some "Wildcard")
        = pyFullMatch (lowerStr k).data (lowerStr v).data)
    ∧ (∀ v k : String, match_text v (some k) none
        = containsSub (lowerStr v).data (lowerStr k).data)
    ∧ (∀ v k m : String,
        pyStrip m ∉ (["Exact", "CaseInsensitive", "StartsWith", "Wildcard"] : List String) →
        match_text v (some k) (some m) = containsSub (lowerStr v).data (lowerStr k).data)
    ∧ (∀ a b : List Char, isPrefB a b = true ↔ ∃ t, b = a ++ t)
    ∧ (∀ v k : List Char, containsSub v k = true ↔ ∃ pre post, v = pre ++ k ++ post)
    ∧ match_text "Foo Bar" (some "bar") (some "Substring") = true
    ∧ match_text "Foo Bar" (some "bar") (some "Exact") = false
    ∧ match_text "abc" (some "a*c") (some "Wildcard") = true := by
  refine ⟨fun _ _ => rfl, fun _ _ => rfl, fun _ _ => rfl, fun _ _ => rfl,
    fun _ _ => ⟨rfl, rfl, rfl⟩, fun _ _ => rfl, fun _ _ => rfl, ?_,
    isPrefB_iff, containsSub_iff, by decide, by decide, by decide⟩
  intro v k m hm
  have h1 : pyStrip m ≠ "Exact" := fun h => hm (by rw [h]; simp)
  have h2 : pyStrip m ≠ "CaseInsensitive" := fun h => hm (by rw [h]; simp)
  have h3 : pyStrip m ≠ "StartsWith" := fun h => hm (by rw [h]; simp)
  have h4 : pyStrip m ≠ "Wildcard" := fun h => hm (by rw [h]; simp)
  by_cases h0 : pyStrip m = ""
  · simp [match_text, h0]
  · by_cases h5 : pyStrip m = "Substring" ∨ pyStrip m = "Fuzzy" ∨ pyStrip m = "FuzzySubstring"
    · simp [match_text, h0, h1, h2, h3, h5]
    · simp [match_text, h0, h1, h2, h3, h4, h5]

/-- Witness for C7: the unrecognized-mode fallback applied at a concrete
input, evaluated. -/
theorem c7_match_text_modes_witness :
    match_text "Foo Bar" (some "foo") (some "Bogus") = true :=
  (c7_match_text_modes.2.2.2.2.2.2.2.1 "Foo Bar" "foo" "Bogus" (by decide)).trans (by decide)

/-- Closed form of the per-version import loop: successes and failures are
appended in order, and neither aborts the fold. -/
theorem import_fold_closed (run : VersionData → Except String ImportedVersionInfo) :
    ∀ (l : List VersionData) (acc1 : List ImportedVersionInfo) (acc2 : List ImportError),
      l.foldl (import_step run) (acc1, acc2)
      = (acc1 ++ l.filterMap (fun vd => (run vd).toOption),
         acc2 ++ l.filterMap (fun vd =>
           match run vd with
           | .ok _ => none
           | .error e => some ({ version := vd.version, error := e } : ImportError)))
  | [], acc1, acc2 => by simp
  | vd :: l, acc1, acc2 => by
    rw [List.foldl_cons]
    cases hrun : run vd with
    | ok r =>
      rw [show import_step run (acc1, acc2) vd = (acc1 ++ [r], acc2) by
        simp [import_step, hrun]]
      rw [import_fold_closed run l (acc1 ++ [r]) acc2]
      simp [List.filterMap_cons, hrun, Except.toOption]
    | error e =>
      rw [show import_step run (acc1, acc2) vd
          = (acc1, acc2 ++ [{ version := vd.version, error := e }]) by
        simp [import_step, hrun]]
      rw [import_fold_closed run l acc1
        (acc2 ++ [({ version := vd.version, error := e } : ImportError)])]
      simp [List.filterMap_cons, hrun, Except.toOption]

/-- When every download fails, the loop imports nothing and records one error
per selected candidate. -/
theorem import_fold_all_fail (run : VersionData → Except String ImportedVersionInfo)
    (hfail : ∀ vd, (run vd).isOk = false) :
    ∀ l : List VersionData,
      (l.filterMap (fun vd => (run vd).toOption)).length = 0
      ∧ (l.filterMap (fun vd =>
          match run vd with
          | .ok _ => none
          | .error e => some ({ version := vd.version, error := e } : ImportError))).length
        = l.length
  | [] => by simp
  | vd :: l => by
    cases hrun : run vd with
    | ok r =>
      have hf := hfail vd
      rw [hrun] at hf
      simp [Except.isOk, Except.toBool] at hf
    | error e =>
      have ih := import_fold_all_fail run hfail l
      simp only [List.filterMap_cons, hrun, Except.toOption, List.length_cons]
      refine ⟨ih.1, ?_⟩
      rw [ih.2]

/-- C2: an import run with zero extracted installer candidates raises the
no-matching-versions error; a run with at least one candidate returns a
success result whose `imported_versions` counts the successful downloads and
whose error list collects exactly the failed ones — even when every download
fails, the run still returns a success result with zero imports and one error
per candidate. -/
theorem c2_import_run_zero_candidates_vs_zero_downloads :
    (∀ (pid mode : String) (types : List String)
        (run : VersionData → Except String ImportedVersionInfo),
        import_package pid [] mode types run
          = .error ("No versions found for package " ++ pid ++ " with filters"))
    ∧ (∀ (pid : String) (data : List VersionData) (mode : String) (types : List String)
        (run : VersionData → Except String ImportedVersionInfo), data ≠ [] →
        import_package pid data mode types run
          = .ok { package_id := pid,
                  imported_versions :=
                    (((if mode = "latest" then select_latest_version_data data types
                        else data).filterMap (fun vd => (run vd).toOption))).length,
                  errors := (if mode = "latest" then select_latest_version_data data types
                      else data).filterMap (fun vd =>
                    match run vd with
                    | .ok _ => none
                    | .error e => some { version := vd.version, error := e }) })
    ∧ (∀ (pid : String) (data : List VersionData) (mode : String) (types : List String)
        (run : VersionData → Except String ImportedVersionInfo), data ≠ [] →
        (import_package pid data mode types run).isOk = true)
    ∧ (∀ (pid : String) (data : List VersionData) (mode : String) (types : List String)
        (run : VersionData → Except String ImportedVersionInfo), data ≠ [] →
        (∀ vd, (run vd).isOk = false) →
        ∃ r : ImportRunResult, import_package pid data mode types run = .ok r
          ∧ r.imported_versions = 0
          ∧ r.errors.length = (if mode = "latest" then select_latest_version_data data types
              else data).length) := by
  have hmain : ∀ (pid : String) (data : List VersionData) (mode : String) (types : List String)
      (run : VersionData → Except String ImportedVersionInfo), data ≠ [] →
      import_package pid data mode types run
        = .ok { package_id := pid,
                imported_versions :=
                  (((if mode = "latest" then select_latest_version_data data types
                      else data).filterMap (fun vd => (run vd).toOption))).length,
                errors := (if mode = "latest" then select_latest_version_data data types
                    else data).filterMap (fun vd =>
                  match run vd with
                  | .ok _ => none
                  | .error e => some { version := vd.version, error := e }) } := by
    intro pid data mode types run hne
    simp only [import_package, if_neg hne]
    rw [import_fold_closed run _ [] []]
    simp
  refine ⟨?_, hmain, ?_, ?_⟩
  · intro pid mode types run
    rw [import_package, if_pos rfl]
  · intro pid data mode types run hne
    rw [hmain pid data mode types run hne]
    rfl
  · intro pid data mode types run hne hfail
    rw [hmain pid data mode types run hne]
    refine ⟨_, rfl, ?_, ?_⟩
    · exact (import_fold_all_fail run hfail _).1
    · exact (import_fold_all_fail run hfail _).2

/-- Witness for C2: a one-candidate run whose only download fails still
returns a success result with zero imports and one recorded error, and the
empty-candidate run raises. -/
theorem c2_import_run_witness :
    import_package "Ex.App" [exCand10] "all" [] (fun _ => .error "download failed")
      = .ok { package_id := "Ex.App", imported_versions := 0,
              errors := [{ version := "1.0", error := "download failed" }] }
    ∧ import_package "Ex.App" [] "all" [] (fun _ => .error "download failed")
      = .error ("No versions found for package Ex.App with filters") := by
  constructor
  · exact (c2_import_run_zero_candidates_vs_zero_downloads.2.1 "Ex.App" [exCand10] "all" []
      (fun _ => .error "download failed") (by decide)).trans (by rfl)
  · exact (c2_import_run_zero_candidates_vs_zero_downloads.1 "Ex.App" "all" []
      (fun _ => .error "download failed")).trans (by rfl)

/-- C3 counterexample: a download that fails on attempt 1 and would succeed
on attempt 2.  Under the claim, the orchestrated installer download would be
retried and the installer imported; in the code the installer download is
made exactly once, so the import records the installer as failed — while the
very same 3-attempt retry loop (which lives in the index download) recovers. -/
theorem c3_retry_counterexample :
    import_version_from_data "Ex.App" exCand10
        (fun n => if n = 1 then .error "connection reset" else .ok "digest")
      = .error "connection reset"
    ∧ (download_winget_index_retry
        (fun n => if n = 1 then .error "connection reset" else .ok "digest")).1
      = .ok "digest"
    ∧ import_package "Ex.App" [exCand10] "all" []
        (fun vd => import_version_from_data "Ex.App" vd
          (fun n => if n = 1 then .error "connection reset" else .ok "digest"))
      = .ok { package_id := "Ex.App", imported_versions := 0,
              errors := [{ version := "1.0", error := "connection reset" }] } := by
  refine ⟨rfl, ?_, rfl⟩
  simp [download_winget_index_retry, retry_loop]

/-- C3 (amended): within an import run each installer download is attempted
exactly once — its outcome is the outcome of attempt 1, and a first-attempt
failure is recorded immediately; the up-to-3-attempts linear-backoff policy
(sleeping `1 × attempt` seconds between attempts) belongs to the repository
index (MSIX) download in `download_winget_index`. -/
theorem c3_single_attempt_and_index_retry :
    (∀ (pid : String) (vd : VersionData) (dl : Nat → Except String String) (e : String),
        dl 1 = .error e → import_version_from_data pid vd dl = .error e)
    ∧ (∀ (pid : String) (vd : VersionData) (dl : Nat → Except String String) (h : String),
        dl 1 = .ok h →
        import_version_from_data pid vd dl
          = .ok { version := vd.version, architecture := pyOrStr vd.architecture "x64",
                  scope := pyOrStr vd.scope "user" })
    ∧ (∀ (dl : Nat → Except String String) (h : String),
        dl 1 = .ok h → download_winget_index_retry dl = (.ok h, []))
    ∧ (∀ (dl : Nat → Except String String) (e h : String),
        dl 1 = .error e → dl 2 = .ok h → download_winget_index_retry dl = (.ok h, [1]))
    ∧ (∀ (dl : Nat → Except String String) (e1 e2 : String),
        dl 1 = .error e1 → dl 2 = .error e2 →
        download_winget_index_retry dl = (dl 3, [1, 2])) := by
  refine ⟨?_, ?_, ?_, ?_, ?_⟩
  · intro pid vd dl e h1
    simp [import_version_from_data, h1]
  · intro pid vd dl h h1
    simp [import_version_from_data, h1]
  · intro dl h h1
    simp [download_winget_index_retry, retry_loop, h1]
  · intro dl e h h1 h2
    simp [download_winget_index_retry, retry_loop, h1, h2]
  · intro dl e1 e2 h1 h2
    cases h3 : dl 3 with
    | ok h => simp [download_winget_index_retry, retry_loop, h1, h2, h3]
    | error e => simp [download_winget_index_retry, retry_loop, h1, h2, h3]

/-- Witness for the amended C3: concrete oracles evaluated through the
theorem — a single failed attempt fails the installer import outright, the
index retry recovers from a one-off failure sleeping 1 second, and three
failures exhaust the retry after sleeping 1 and 2 seconds. -/
theorem c3_single_attempt_and_index_retry_witness :
    import_version_from_data "Ex.App" exCand10 (fun _ => .error "net down")
      = .error "net down"
    ∧ download_winget_index_retry (fun n => if n = 1 then .error "net down" else .ok "digest")
        = (.ok "digest", [1])
    ∧ download_winget_index_retry (fun _ => .error "net down")
        = (.error "net down", [1, 2]) := by
  refine ⟨?_, ?_, ?_⟩
  · exact c3_single_attempt_and_index_retry.1 "Ex.App" exCand10 (fun _ => .error "net down")
      "net down" rfl
  · exact c3_single_attempt_and_index_retry.2.2.2.1
      (fun n => if n = 1 then .error "net down" else .ok "digest") "net down" "digest" rfl rfl
  · exact (c3_single_attempt_and_index_retry.2.2.2.2 (fun _ => .error "net down")
      "net down" "net down" rfl rfl).trans (by rfl)

/-- C4: the chunk decompressor raises the format error on an input shorter
than the 24-byte header, on a wrong 6-byte magic, and on a wrong 2-byte
chunk signature; once the chunk loop completes, the function returns
normally with the (possibly trimmed) output — no hypothesis relates the
output length to the declared size read at header offset 8, so a final
length differing from the declared size is returned, not raised. -/
theorem c4_decompress_mszip_errors :
    (∀ (σ : Type) (I : Inflater σ) (s0 : σ) (data : List Nat),
        data.length < 24 → (decompress_mszip I s0 data).isOk = false)
    ∧ (∀ (σ : Type) (I : Inflater σ) (s0 : σ) (data : List Nat),
        24 ≤ data.length → data.take 6 ≠ mszipMagic →
        decompress_mszip I s0 data = .error "Invalid MSZIP header")
    ∧ (∀ (σ : Type) (I : Inflater σ) (data : List Nat) (size : Nat) (s : σ)
        (offset : Nat) (acc : List Nat),
        acc.length < size → offset + 6 ≤ data.length →
        (data.drop (offset + 4)).take 2 ≠ ckMarker →
        process_chunks I data size s offset acc = .error "Invalid chunk signature")
    ∧ (∀ (σ : Type) (I : Inflater σ) (s0 : σ) (data : List Nat) (s : σ) (acc : List Nat),
        24 ≤ data.length → data.take 6 = mszipMagic →
        process_chunks I data (declaredSize data) s0 24 [] = .ok (s, acc) →
        ∃ out, decompress_mszip I s0 data = .ok out
          ∧ out.length ≤ declaredSize data) := by
  refine ⟨?_, ?_, ?_, ?_⟩
  · intro σ I s0 data hlen
    by_cases hnil : data = []
    · simp [decompress_mszip, hnil, Except.isOk, Except.toBool]
    · simp [decompress_mszip, hnil, hlen, Except.isOk, Except.toBool]
  · intro σ I s0 data hlen hmagic
    have hnil : data ≠ [] := by
      intro hc
      rw [hc] at hlen
      simp at hlen
    have h24 : ¬ data.length < 24 := by omega
    simp [decompress_mszip, hnil, h24, hmagic]
  · intro σ I data size s offset acc hacc hoff hsig
    rw [process_chunks]
    rw [dif_pos ⟨hacc, by omega⟩]
    rw [if_neg (by omega : ¬ data.length < offset + 4)]
    rw [if_neg (by omega : ¬ data.length < offset + 4 + 2)]
    rw [if_pos hsig]
  · intro σ I s0 data s acc hlen hmagic hloop
    have hnil : data ≠ [] := by
      intro hc
      rw [hc] at hlen
      simp at hlen
    have h24 : ¬ data.length < 24 := by omega
    have hm : ¬ (data.take 6 ≠ mszipMagic) := by simp [hmagic]
    simp only [decompress_mszip, if_neg hnil, if_neg h24, if_neg hm, hloop]
    cases hf : I.flush s with
    | some extra =>
      simp only [hf]
      by_cases hsz : declaredSize data < (acc ++ extra).length
      · refine ⟨(acc ++ extra).take (declaredSize data), ?_, ?_⟩
        · rw [if_pos hsz]
        · rw [List.length_take]
          omega
      · refine ⟨acc ++ extra, ?_, ?_⟩
        · rw [if_neg hsz]
        · omega
    | none =>
      simp only [hf]
      by_cases hsz : declaredSize data < acc.length
      · refine ⟨acc.take (declaredSize data), ?_, ?_⟩
        · rw [if_pos hsz]
        · rw [List.length_take]
          omega
      · refine ⟨acc, ?_, ?_⟩
        · rw [if_neg hsz]
        · omega

/-- Witness for C4: the error paths and the tolerated size mismatch, at
concrete inputs through a concrete inflater — in particular the well-formed
container declaring 10 bytes but producing 3 returns normally. -/
theorem c4_decompress_mszip_errors_witness :
    (decompress_mszip idInflater () [0]).isOk = false
    ∧ decompress_mszip idInflater ()
        ([1, 1, 1, 1, 1, 1] ++ [0, 0] ++ [10, 0, 0, 0, 0, 0, 0, 0]
          ++ [0, 0, 0, 0, 0, 0, 0, 0])
      = .error "Invalid MSZIP header"
    ∧ process_chunks idInflater mszipBadSigExample 10 () 24 []
      = .error "Invalid chunk signature"
    ∧ (∃ out, decompress_mszip idInflater () mszipShortExample = .ok out
        ∧ out.length ≤ declaredSize mszipShortExample) := by
  refine ⟨?_, ?_, ?_, ?_⟩
  · exact c4_decompress_mszip_errors.1 Unit idInflater () [0] (by decide)
  · exact c4_decompress_mszip_errors.2.1 Unit idInflater () _ (by decide) (by decide)
  · exact c4_decompress_mszip_errors.2.2.1 Unit idInflater mszipBadSigExample 10 () 24 []
      (by decide) (by decide) (by decide)
  · exact c4_decompress_mszip_errors.2.2.2 Unit idInflater () mszipShortExample () [1, 2, 3]
      (by decide) (by decide)
      (by simp [process_chunks, declaredSize, leBytesToNat, mszipShortExample,
        mszipMagic, idInflater, ckMarker])

/-- `strip_nulls` maps non-null values to non-null values (only the scalar
`null` is fixed to `null`; dicts and lists keep their constructors). -/
theorem strip_nulls_ne_null : ∀ j : Json, j ≠ Json.null → strip_nulls j ≠ Json.null
  | .null, h => absurd rfl h
  | .bool _, _ => by simp [strip_nulls]
  | .num _, _ => by simp [strip_nulls]
  | .str _, _ => by simp [strip_nulls]
  | .arr _, _ => by simp [strip_nulls]
  | .obj _, _ => by simp [strip_nulls]

/-- The dict comprehension keeps a non-null field, cleaning its value. -/
theorem strip_nulls_fields_cons_of_ne (k : String) (w : Json)
    (rest : List (String × Json)) (hw : w ≠ Json.null) :
    strip_nulls_fields ((k, w) :: rest) = (k, strip_nulls w) :: strip_nulls_fields rest := by
  cases w with
  | null => exact absurd rfl hw
  | bool b => simp [strip_nulls_fields]
  | num n => simp [strip_nulls_fields]
  | str s => simp [strip_nulls_fields]
  | arr elems => simp [strip_nulls_fields]
  | obj fields => simp [strip_nulls_fields]

mutual

theorem strip_nulls_idem : ∀ j : Json, strip_nulls (strip_nulls j) = strip_nulls j
  | .null => rfl
  | .bool _ => rfl
  | .num _ => rfl
  | .str _ => rfl
  | .arr elems => by
    simp only [strip_nulls]
    rw [strip_nulls_list_idem elems]
  | .obj fields => by
    simp only [strip_nulls]
    rw [strip_nulls_fields_idem fields]

theorem strip_nulls_list_idem :
    ∀ l : List Json, strip_nulls_list (strip_nulls_list l) = strip_nulls_list l
  | [] => by simp [strip_nulls_list]
  | j :: rest => by
    simp only [strip_nulls_list]
    rw [strip_nulls_idem j, strip_nulls_list_idem rest]

theorem strip_nulls_fields_idem :
    ∀ fs : List (String × Json), strip_nulls_fields (strip_nulls_fields fs) = strip_nulls_fields fs
  | [] => by simp [strip_nulls_fields]
  | (k, .null) :: rest => by
    simp only [strip_nulls_fields]
    exact strip_nulls_fields_idem rest
  | (k, .bool b) :: rest => by
    rw [strip_nulls_fields_cons_of_ne k (.bool b) rest (by simp),
      strip_nulls_fields_cons_of_ne k (strip_nulls (.bool b)) _
        (strip_nulls_ne_null (.bool b) (by simp)),
      strip_nulls_idem (.bool b), strip_nulls_fields_idem rest]
  | (k, .num n) :: rest => by
    rw [strip_nulls_fields_cons_of_ne k (.num n) rest (by simp),
      strip_nulls_fields_cons_of_ne k (strip_nulls (.num n)) _
        (strip_nulls_ne_null (.num n) (by simp)),
      strip_nulls_idem (.num n), strip_nulls_fields_idem rest]
  | (k, .str s) :: rest => by
    rw [strip_nulls_fields_cons_of_ne k (.str s) rest (by simp),
      strip_nulls_fields_cons_of_ne k (strip_nulls (.str s)) _
        (strip_nulls_ne_null (.str s) (by simp)),
      strip_nulls_idem (.str s), strip_nulls_fields_idem rest]
  | (k, .arr elems) :: rest => by
    rw [strip_nulls_fields_cons_of_ne k (.arr elems) rest (by simp),
      strip_nulls_fields_cons_of_ne k (strip_nulls (.arr elems)) _
        (strip_nulls_ne_null (.arr elems) (by simp)),
      strip_nulls_idem (.arr elems), strip_nulls_fields_idem rest]
  | (k, .obj fields) :: rest => by
    rw [strip_nulls_fields_cons_of_ne k (.obj fields) rest (by simp),
      strip_nulls_fields_cons_of_ne k (strip_nulls (.obj fields)) _
        (strip_nulls_ne_null (.obj fields) (by simp)),
      strip_nulls_idem (.obj fields), strip_nulls_fields_idem rest]

end

/-- Non-null values satisfy the head test of `no_null_fields_fields`. -/
theorem no_null_head_of_ne (w : Json) (hw : w ≠ Json.null) :
    (match w with | Json.null => false | _ => true) = true := by
  cases w <;> first | exact absurd rfl hw | rfl

mutual

theorem no_null_fields_strip : ∀ j : Json, no_null_fields (strip_nulls j) = true
  | .null => rfl
  | .bool _ => rfl
  | .num _ => rfl
  | .str _ => rfl
  | .arr elems => by
    simp only [strip_nulls, no_null_fields]
    exact no_null_fields_list_strip elems
  | .obj fields => by
    simp only [strip_nulls, no_null_fields]
    exact no_null_fields_fields_strip fields

theorem no_null_fields_list_strip :
    ∀ l : List Json, no_null_fields_list (strip_nulls_list l) = true
  | [] => by simp [strip_nulls_list, no_null_fields_list]
  | j :: rest => by
    simp only [strip_nulls_list, no_null_fields_list, Bool.and_eq_true]
    exact ⟨no_null_fields_strip j, no_null_fields_list_strip rest⟩

theorem no_null_fields_fields_strip :
    ∀ fs : List (String × Json), no_null_fields_fields (strip_nulls_fields fs) = true
  | [] => by simp [strip_nulls_fields, no_null_fields_fields]
  | (k, .null) :: rest => by
    simp only [strip_nulls_fields]
    exact no_null_fields_fields_strip rest
  | (k, .bool b) :: rest => by
    rw [strip_nulls_fields_cons_of_ne k (.bool b) rest (by simp)]
    simp only [no_null_fields_fields, Bool.and_eq_true]
    exact ⟨⟨no_null_head_of_ne _ (strip_nulls_ne_null (.bool b) (by simp)),
      no_null_fields_strip (.bool b)⟩, no_null_fields_fields_strip rest⟩
  | (k, .num n) :: rest => by
    rw [strip_nulls_fields_cons_of_ne k (.num n) rest (by simp)]
    simp only [no_null_fields_fields, Bool.and_eq_true]
    exact ⟨⟨no_null_head_of_ne _ (strip_nulls_ne_null (.num n) (by simp)),
      no_null_fields_strip (.num n)⟩, no_null_fields_fields_strip rest⟩
  | (k, .str s) :: rest => by
    rw [strip_nulls_fields_cons_of_ne k (.str s) rest (by simp)]
    simp only [no_null_fields_fields, Bool.and_eq_true]
    exact ⟨⟨no_null_head_of_ne _ (strip_nulls_ne_null (.str s) (by simp)),
      no_null_fields_strip (.str s)⟩, no_null_fields_fields_strip rest⟩
  | (k, .arr elems) :: rest => by
    rw [strip_nulls_fields_cons_of_ne k (.arr elems) rest (by simp)]
    simp only [no_null_fields_fields, Bool.and_eq_true]
    exact ⟨⟨no_null_head_of_ne _ (strip_nulls_ne_null (.arr elems) (by simp)),
      no_null_fields_strip (.arr elems)⟩, no_null_fields_fields_strip rest⟩
  | (k, .obj fields) :: rest => by
    rw [strip_nulls_fields_cons_of_ne k (.obj fields) rest (by simp)]
    simp only [no_null_fields_fields, Bool.and_eq_true]
    exact ⟨⟨no_null_head_of_ne _ (strip_nulls_ne_null (.obj fields) (by simp)),
      no_null_fields_strip (.obj fields)⟩, no_null_fields_fields_strip rest⟩

end

/-- Cleaning a list cleans its elements pointwise and drops none of them. -/
theorem strip_nulls_list_eq_map : ∀ l : List Json, strip_nulls_list l = l.map strip_nulls
  | [] => by simp [strip_nulls_list]
  | j :: rest => by
    simp only [strip_nulls_list, List.map_cons]
    rw [strip_nulls_list_eq_map rest]

/-- C10: the null-stripping helper removes every dict key whose value is null
at any nesting depth (no dict in its output retains a null-valued field),
maps lists pointwise — preserving length and preserving null elements in
place — and is idempotent. -/
theorem c10_strip_nulls_shape :
    (∀ j : Json, strip_nulls (strip_nulls j) = strip_nulls j)
    ∧ (∀ elems : List Json, strip_nulls (Json.arr elems) = Json.arr (elems.map strip_nulls))
    ∧ strip_nulls Json.null = Json.null
    ∧ (∀ elems : List Json, (strip_nulls_list elems).length = elems.length)
    ∧ (∀ (elems : List Json) (i : Nat), elems.get? i = some Json.null →
        (strip_nulls_list elems).get? i = some Json.null)
    ∧ (∀ j : Json, no_null_fields (strip_nulls j) = true) := by
  refine ⟨strip_nulls_idem, ?_, rfl, ?_, ?_, no_null_fields_strip⟩
  · intro elems
    simp only [strip_nulls]
    rw [strip_nulls_list_eq_map]
  · intro elems
    rw [strip_nulls_list_eq_map]
    simp
  · intro elems i hi
    rw [strip_nulls_list_eq_map, List.get?_map, hi]
    rfl

/-- Witness for C10: a null element inside a list survives stripping in
place. -/
theorem c10_strip_nulls_shape_witness :
    (strip_nulls_list [Json.null, Json.bool true]).get? 0 = some Json.null :=
  c10_strip_nulls_shape.2.2.2.2.1 [Json.null, Json.bool true] 0 rfl

/-- C1 counterexample: a package with one version whose only installer has no
stored SHA-256 and no computable on-disk hash.  The claim says the manifest
document then contains no entry for that version; the code emits the version
entry with an empty installer list. -/
theorem c1_empty_version_kept_counterexample :
    get_package_manifests
        [("Ex.App",
          { package := { package_identifier := "Ex.App", package_name := "Example",
                         publisher := "ExPub" },
            versions := [{ version := "1.0", architecture := "x64", scope := some "user" }] })]
        "Ex.App" "http://srv" (fun _ _ => none)
      = some { packageIdentifier := "Ex.App",
               versions := [{ packageVersion := "1.0", installers := [] }] } := by
  decide

/-- C1 (amended): an installer whose SHA-256 cannot be resolved (neither
stored nor computable from disk) is silently omitted from its version's
installer list, and every emitted installer carries a resolved non-empty
SHA-256; but a version left with zero installers is NOT excluded — every
stored version string yields exactly its entry in the document, empty
installer list or not. -/
theorem c1_sha_skip_keeps_version_entry :
    (∀ (base pid : String) (disk : String → String → Option String)
        (versions : List VersionMetadata) (v : VersionMetadata), v ∈ versions →
        ∃ e ∈ build_version_entries base pid disk versions, e.packageVersion = v.version)
    ∧ (∀ (base pid : String) (disk : String → String → Option String)
        (versions : List VersionMetadata) (e : ManifestVersionEntry),
        e ∈ build_version_entries base pid disk versions →
        e.installers = (versions.filter (fun v => v.version == e.packageVersion)).filterMap
          (build_installer_entry base pid disk))
    ∧ (∀ (base pid : String) (disk : String → String → Option String)
        (v : VersionMetadata),
        build_installer_entry base pid disk v = none
          ↔ truthyStr (resolve_sha256 disk v) = false)
    ∧ (∀ (base pid : String) (disk : String → String → Option String)
        (versions : List VersionMetadata) (e : ManifestVersionEntry)
        (inst : ManifestInstallerEntry),
        e ∈ build_version_entries base pid disk versions → inst ∈ e.installers →
        inst.installerSha256 ≠ ""
          ∧ ∃ v ∈ versions, v.version = e.packageVersion
              ∧ resolve_sha256 disk v = some inst.installerSha256) := by
  have hmem : ∀ (base pid : String) (disk : String → String → Option String)
      (versions : List VersionMetadata) (e : ManifestVersionEntry),
      e ∈ build_version_entries base pid disk versions →
      ∃ ver, e = ManifestVersionEntry.mk ver
        ((versions.filter (fun v => v.version == ver)).filterMap
          (build_installer_entry base pid disk)) := by
    intro base pid disk versions e he
    simp only [build_version_entries] at he
    rcases List.mem_map.mp he with ⟨ver, _, hve⟩
    exact ⟨ver, hve.symm⟩
  refine ⟨?_, ?_, ?_, ?_⟩
  · intro base pid disk versions v hv
    refine ⟨{ packageVersion := v.version,
              installers := (versions.filter (fun w => w.version == v.version)).filterMap
                (build_installer_entry base pid disk) }, ?_, rfl⟩
    simp only [build_version_entries]
    refine List.mem_map_of_mem _ ?_
    refine (mem_sortByLe strDescLe v.version _).mpr ?_
    refine (mem_firstDedup v.version _).mpr ?_
    exact List.mem_map_of_mem _ hv
  · intro base pid disk versions e he
    rcases hmem base pid disk versions e he with ⟨ver, rfl⟩
    rfl
  · intro base pid disk v
    cases hres : resolve_sha256 disk v with
    | none => simp [build_installer_entry, hres, truthyStr]
    | some sha =>
      by_cases hsha : sha = ""
      · simp [build_installer_entry, hres, hsha, truthyStr]
      · simp [build_installer_entry, hres, hsha, truthyStr]
  · intro base pid disk versions e inst he hinst
    rcases hmem base pid disk versions e he with ⟨ver, rfl⟩
    simp only at hinst
    rcases List.mem_filterMap.mp hinst with ⟨v, hvf, hbuild⟩
    rcases List.mem_filter.mp hvf with ⟨hvmem, hveq⟩
    cases hres : resolve_sha256 disk v with
    | none => simp [build_installer_entry, hres] at hbuild
    | some sha =>
      by_cases hsha : sha = ""
      · simp [build_installer_entry, hres, hsha] at hbuild
      · simp only [build_installer_entry, hres, if_neg hsha, Option.some.injEq] at hbuild
        constructor
        · rw [← hbuild]
          exact hsha
        · refine ⟨v, hvmem, ?_, ?_⟩
          · exact eq_of_beq hveq
          · rw [← hbuild, hres]

/-- Witness for the amended C1: at the counterexample input the only
installer's SHA-256 does not resolve (so its entry builder yields `none`),
yet the version string 1.0 still has an entry in the built document. -/
theorem c1_sha_skip_keeps_version_entry_witness :
    build_installer_entry "http://srv" "Ex.App" (fun _ _ => none)
        { version := "1.0", architecture := "x64", scope := some "user" } = none
    ∧ ∃ e ∈ build_version_entries "http://srv" "Ex.App" (fun _ _ => none)
        [{ version := "1.0", architecture := "x64", scope := some "user" }],
        e.packageVersion = "1.0" := by
  constructor
  · exact (c1_sha_skip_keeps_version_entry.2.2.1 "http://srv" "Ex.App" (fun _ _ => none)
      { version := "1.0", architecture := "x64", scope := some "user" }).mpr (by decide)
  · exact c1_sha_skip_keeps_version_entry.1 "http://srv" "Ex.App" (fun _ _ => none)
      [{ version := "1.0", architecture := "x64", scope := some "user" }]
      { version := "1.0", architecture := "x64", scope := some "user" } (by decide)

/-- Taking a positive number of elements from a non-empty list is non-empty. -/
theorem take_ne_nil_of_pos {α : Type _} (l : List α) (n : Nat) (hl : l ≠ []) (hn : 0 < n) :
    l.take n ≠ [] := by
  cases l with
  | nil => exact absurd rfl hl
  | cons a as =>
    cases n with
    | zero => omega
    | succ k => simp

/-- C8: the search endpoint answers `204 No Content` exactly when the
computed result set is empty; otherwise it answers `200` with a non-empty
results array, truncated to `MaximumResults` when that value is supplied and
positive and returned whole when it is absent or non-positive.  (The model
has no error outcome: an all-eliminating `Filters` list lands in the `204`
case of the iff.) -/
theorem c8_search_204_policy (index : RepoPackages) (body : ManifestSearchRequest) :
    (manifest_search index body = .noContent ↔ search_results index body = [])
    ∧ (search_results index body ≠ [] →
        ∃ l, manifest_search index body = .ok l ∧ l ≠ []
          ∧ (∀ m : Int, body.maximumResults = some m → 0 < m →
              l = (search_results index body).take m.toNat ∧ l.length ≤ m.toNat)
          ∧ (body.maximumResults = none ∨ (∃ m, body.maximumResults = some m ∧ m ≤ 0) →
              l = search_results index body)) := by
  by_cases hres : search_results index body = []
  · refine ⟨⟨fun _ => hres, fun _ => ?_⟩, fun hne => absurd hres hne⟩
    simp [manifest_search, hres]
  · constructor
    · constructor
      · intro hnc
        rcases hmax : body.maximumResults with _ | m
        · simp only [manifest_search, hmax, if_neg hres] at hnc
          exact SearchResponse.noConfusion hnc
        · by_cases hm : 0 < m
          · simp only [manifest_search, hmax, if_neg hres, if_pos hm] at hnc
            exact SearchResponse.noConfusion hnc
          · simp only [manifest_search, hmax, if_neg hres, if_neg hm] at hnc
            exact SearchResponse.noConfusion hnc
      · intro h
        exact absurd h hres
    · intro _
      rcases hmax : body.maximumResults with _ | m
      · refine ⟨search_results index body, ?_, hres, ?_, fun _ => rfl⟩
        · simp only [manifest_search, hmax, if_neg hres]
        · intro m hm
          exact Option.noConfusion hm
      · by_cases hm : 0 < m
        · refine ⟨(search_results index body).take m.toNat, ?_, ?_, ?_, ?_⟩
          · simp only [manifest_search, hmax, if_neg hres, if_pos hm]
          · exact take_ne_nil_of_pos _ _ hres (by omega)
          · intro m' hm' _
            injection hm' with hm'
            subst hm'
            exact ⟨rfl, by rw [List.length_take]; omega⟩
          · intro hcase
            rcases hcase with hnone | ⟨m', hm', hle⟩
            · exact Option.noConfusion hnone
            · injection hm' with hm'
              subst hm'
              omega
        · refine ⟨search_results index body, ?_, hres, ?_, fun _ => rfl⟩
          · simp only [manifest_search, hmax, if_neg hres, if_neg hm]
          · intro m' hm' hpos
            injection hm' with hm'
            subst hm'
            exact absurd hpos hm

/-- Witness for C8: a request whose Filter field resolves to no values
eliminates every candidate, and the endpoint answers `204`; the same index
under the empty request with `MaximumResults = 1` answers `200` with a
non-empty array of at most one entry. -/
theorem c8_search_204_policy_witness :
    manifest_search exRepo exFilteredOutBody = SearchResponse.noContent
    ∧ ∃ l, manifest_search exRepo exCapBody = .ok l ∧ l ≠ [] ∧ l.length ≤ 1 := by
  constructor
  · exact (c8_search_204_policy exRepo exFilteredOutBody).1.mpr (by decide)
  · rcases (c8_search_204_policy exRepo exCapBody).2 (by decide) with ⟨l, hok, hne, hcap, _⟩
    exact ⟨l, hok, hne, ((hcap 1 rfl (by decide)).2 : l.length ≤ (1 : Int).toNat)⟩

/-- With distinct dict keys, `index.packages.get(p.1)` returns `p.2` for
every stored pair. -/
theorem lookupPkg_of_nodup :
    ∀ index : RepoPackages, (index.map Prod.fst).Nodup →
      ∀ p ∈ index, lookupPkg index p.1 = some p.2
  | [], _, p, hp => absurd hp (List.not_mem_nil p)
  | q :: rest, hnodup, p, hp => by
    have hnd : q.1 ∉ rest.map Prod.fst ∧ (rest.map Prod.fst).Nodup := by
      rw [List.map_cons] at hnodup
      exact List.nodup_cons.mp hnodup
    rcases List.mem_cons.mp hp with heq | hp'
    · rw [heq]
      simp [lookupPkg, List.find?]
    · have hne : (q.1 == p.1) = false := by
        apply beq_eq_false_iff_ne.mpr
        intro hcontra
        apply hnd.1
        rw [hcontra]
        exact List.mem_map_of_mem Prod.fst hp'
      have hne' : ¬ (q.1 == p.1) = true := by simp [hne]
      have hrec := lookupPkg_of_nodup rest hnd.2 p hp'
      simp only [lookupPkg]
      rw [show List.find? (fun r : String × PackageIndex => r.1 == p.1) (q :: rest)
          = List.find? (fun r : String × PackageIndex => r.1 == p.1) rest from
        List.find?_cons_of_neg rest hne']
      exact hrec

/-- When the request carries no truthy query keyword, no package matches the
Query. -/
theorem query_false_of_not_provided (body : ManifestSearchRequest)
    (hq : queryProvided body = false) :
    ∀ (pid : String) (pkg : PackageIndex), package_matches_query pid pkg body.query = false := by
  intro pid pkg
  cases hbq : body.query with
  | none => rfl
  | some q =>
    cases hkw : q.keyWord with
    | none => simp [package_matches_query, hkw]
    | some kw =>
      simp only [queryProvided, hbq, hkw] at hq
      simp only [Bool.not_eq_false'] at hq
      simp [package_matches_query, hkw, of_decide_eq_true hq]

/-- The empty request's candidate set defaults to every package. -/
theorem candidate_ids_empty_request (index : RepoPackages) (body : ManifestSearchRequest)
    (hfa : body.fetchAllManifests ≠ some true)
    (hq : queryProvided body = false) (hinc : body.inclusions = []) :
    candidate_ids index body = index.map Prod.fst := by
  have hqf := query_false_of_not_provided body hq
  simp only [candidate_ids]
  rw [if_neg hfa]
  have hbase : index.filter (fun p =>
      package_matches_query p.1 p.2 body.query
        || body.inclusions.any (fun inc => package_matches_filter p.1 p.2 inc)) = [] := by
    apply List.filter_eq_nil_iff.mpr
    intro p _
    simp [hqf p.1 p.2, hinc]
  rw [hbase]
  simp [hq, hinc]

/-- With no Filters, every candidate of the empty request survives step 2. -/
theorem filtered_ids_empty_request (index : RepoPackages) (body : ManifestSearchRequest)
    (hnodup : (index.map Prod.fst).Nodup) (hflt : body.filters = [])
    (hcand : candidate_ids index body = index.map Prod.fst) :
    filtered_ids index body = index.map Prod.fst := by
  rw [filtered_ids, hcand]
  apply List.filter_eq_self.mpr
  intro pid hpid
  rcases List.mem_map.mp hpid with ⟨q, hqmem, rfl⟩
  simp [lookupPkg_of_nodup index hnodup q hqmem, hflt]

/-- A built search entry carries the package id it was built for. -/
theorem build_search_entry_pid (pid : String) (pkg : PackageIndex) (e : SearchResultEntry)
    (h : build_search_entry pid pkg = some e) : e.packageIdentifier = pid := by
  simp only [build_search_entry] at h
  split at h
  · exact Option.noConfusion h
  · injection h with h
    rw [← h]

/-- The `continue` dropping a package from the results happens exactly when
no version has a non-empty version string. -/
theorem build_search_entry_none_iff (pid : String) (pkg : PackageIndex) :
    build_search_entry pid pkg = none ↔ ∀ v ∈ pkg.versions, v.version = "" := by
  by_cases hfm : pkg.versions.filterMap (fun v => if v.version = "" then none
      else some v.version) = []
  · have hnone : build_search_entry pid pkg = none := by
      simp only [build_search_entry, hfm]
      rfl
    constructor
    · intro _ v hv
      have hv' := List.filterMap_eq_nil_iff.mp hfm v hv
      by_cases hve : v.version = ""
      · exact hve
      · simp [hve] at hv'
    · intro _
      exact hnone
  · have hsome : ∃ e, build_search_entry pid pkg = some e := by
      have hvs : sortByLe strDescLe (firstDedup (pkg.versions.filterMap
          (fun v => if v.version = "" then none else some v.version))) ≠ [] := by
        rw [Ne, sortByLe_eq_nil_iff, firstDedup_eq_nil_iff]
        exact hfm
      have hpay : (sortByLe strDescLe (firstDedup (pkg.versions.filterMap
          (fun v => if v.version = "" then none else some v.version)))).map
            (fun ver =>
              ({ packageVersion := ver,
                 productCodes := sortByLe strAscLe (firstDedup
                   ((pkg.versions.filter (fun v => v.version == ver)).filterMap (fun v =>
                     match v.product_code with
                     | some c => if c = "" then none else some c
                     | none => none))) } : SearchVersionInfo)) ≠ [] := by
        rw [Ne, List.map_eq_nil_iff]
        exact hvs
      simp only [build_search_entry]
      rw [if_neg hpay]
      exact ⟨_, rfl⟩
    constructor
    · intro h
      rcases hsome with ⟨e, he⟩
      rw [h] at he
      exact Option.noConfusion he
    · intro hall
      exfalso
      apply hfm
      apply List.filterMap_eq_nil_iff.mpr
      intro v hv
      simp [hall v hv]

/-- A package that produced a search entry has a version with a non-empty
version string. -/
theorem build_search_entry_some_exists_version (pid : String) (pkg : PackageIndex)
    (e : SearchResultEntry) (h : build_search_entry pid pkg = some e) :
    ∃ v ∈ pkg.versions, v.version ≠ "" := by
  by_contra hcon
  push_neg at hcon
  have hnone := (build_search_entry_none_iff pid pkg).mpr hcon
  rw [hnone] at h
  exact Option.noConfusion h

/-- A package with a non-empty version string produces a search entry. -/
theorem build_search_entry_some_of_version (pid : String) (pkg : PackageIndex)
    (h : ∃ v ∈ pkg.versions, v.version ≠ "") :
    ∃ e, build_search_entry pid pkg = some e := by
  cases hb : build_search_entry pid pkg with
  | some e => exact ⟨e, rfl⟩
  | none =>
    rcases h with ⟨v, hv, hne⟩
    exact absurd ((build_search_entry_none_iff pid pkg).mp hb v hv) hne

/-- C9: under the empty request (no truthy Query keyword, no Inclusions, no
Filters, fetchAll false, no result cap), the response lists exactly the
packages having at least one version with a non-empty version string: each
such stored package appears, and every returned entry corresponds to one. -/
theorem c9_empty_request_lists_everything
    (index : RepoPackages) (body : ManifestSearchRequest)
    (hnodup : (index.map Prod.fst).Nodup)
    (hfa : body.fetchAllManifests ≠ some true)
    (hq : queryProvided body = false)
    (hinc : body.inclusions = [])
    (hflt : body.filters = [])
    (hmax : body.maximumResults = none) :
    ∀ p ∈ index,
      ((∃ v ∈ p.2.versions, v.version ≠ "")
        ↔ ∃ e ∈ response_results (manifest_search index body), e.packageIdentifier = p.1) := by
  intro p hp
  have hcand := candidate_ids_empty_request index body hfa hq hinc
  have hfilt := filtered_ids_empty_request index body hnodup hflt hcand
  constructor
  · intro hv
    rcases build_search_entry_some_of_version p.1 p.2 hv with ⟨e, he⟩
    have hmem : e ∈ search_results index body := by
      rw [search_results, hfilt]
      refine List.mem_filterMap.mpr ⟨p.1, List.mem_map_of_mem Prod.fst hp, ?_⟩
      rw [lookupPkg_of_nodup index hnodup p hp]
      exact he
    have hne : search_results index body ≠ [] := by
      intro hc
      rw [hc] at hmem
      exact absurd hmem (List.not_mem_nil e)
    refine ⟨e, ?_, build_search_entry_pid p.1 p.2 e he⟩
    have hrr : response_results (manifest_search index body) = search_results index body := by
      simp only [manifest_search, hmax, if_neg hne, response_results]
    rw [hrr]
    exact hmem
  · intro ⟨e, hemem, hepid⟩
    by_cases hres : search_results index body = []
    · have hempty : response_results (manifest_search index body) = [] := by
        simp [manifest_search, hres, response_results]
      rw [hempty] at hemem
      exact absurd hemem (List.not_mem_nil e)
    · have hrr : response_results (manifest_search index body) = search_results index body := by
        simp only [manifest_search, hmax, if_neg hres, response_results]
      rw [hrr, search_results, hfilt] at hemem
      rcases List.mem_filterMap.mp hemem with ⟨pid, hpid, hpe⟩
      rcases List.mem_map.mp hpid with ⟨q, hqmem, rfl⟩
      simp only [lookupPkg_of_nodup index hnodup q hqmem] at hpe
      have hqpid : e.packageIdentifier = q.1 := build_search_entry_pid q.1 q.2 e hpe
      have hkey : q.1 = p.1 := by rw [← hqpid, hepid]
      have hq2 : q.2 = p.2 := by
        have h1 := lookupPkg_of_nodup index hnodup q hqmem
        have h2 := lookupPkg_of_nodup index hnodup p hp
        rw [hkey] at h1
        exact Option.some_inj.mp (h1.symm.trans h2)
      have hex := build_search_entry_some_exists_version q.1 q.2 e hpe
      rw [hq2] at hex
      exact hex

/-- Witness for C9: the empty request on the one-package example repository
lists the package (it has version 1.0, which is non-empty). -/
theorem c9_empty_request_lists_everything_witness :
    ∃ e ∈ response_results (manifest_search exRepo exEmptyBody),
      e.packageIdentifier = "Ex.App" :=
  (c9_empty_request_lists_everything exRepo exEmptyBody (by decide) (by decide) (by decide)
      rfl rfl rfl ("Ex.App", exPkgIndex) (by decide)).mp
    ⟨{ version := "1.0", architecture := "x64", scope := some "user",
       product_code := some "PC-1" }, by decide, by decide⟩
